import Mathlib

/-!
# zephyr.js timers (`src/zjs_timers.c`)

A shallow embedding of the timer list of `zjs_timers.c`, of the three
operations that work on it, `add_timer`, `delete_timer` and
`zjs_timers_process_events`, and of the two native handlers.

* The singly linked list headed by the global `zjs_timers` is a `List` of
  records, head first; the `next` field of a node is the tail that follows it.
* Pointers to JavaScript objects (`jerry_api_object_t *`) are the addresses of
  the objects, natural numbers.  `uint32_t interval` is a natural number; the
  code does no arithmetic on it.
* The services the file calls but does not define (kernel heap, nano timers,
  reference counts of the JavaScript engine, the callback queue of `zjs_util`)
  are modelled by the small definitions of the first section.
* The `PRINT` calls write to the console only and are left out.
* For the one statement on reads from freed blocks the two loops are written a
  second time on blocks with addresses (section "The list in memory").
-/

namespace ZjsTimers

/-! ## Data model -/

/-- The constant `MAX_NUMBER_TIMERS` of line 20. -/
def MAX_NUMBER_TIMERS : Nat := 10

/-- A non-null `jerry_api_object_t *`: the address of a JavaScript object. -/
abbrev jerry_api_object_t := Nat

/-- The `struct zjs_timer_t` of lines 22-29.  `timer_data` is only the cell
handed to `nano_timer_init`; `next` is the tail of the list the record sits in.
The field `repeat` is spelled `repeat_`, `repeat` being reserved.

Modelled from the spec: the kernel's `struct nano_timer` in the field `timer`
is the countdown of §3 ("remaining ticks"); only the number of ticks left is
kept, `0` meaning that the countdown has reached zero. -/
structure zjs_timer_t where
  timer : Nat
  interval : Nat
  repeat_ : Bool
  callback : jerry_api_object_t
deriving DecidableEq, Repr

/-- One call `zjs_queue_callback(callback, args, argc)` as the callback queue
receives it; `args` is the list of arguments (`NULL` with `argc = 0` is the
empty list). -/
structure zjs_callback_t where
  callback : jerry_api_object_t
  args : List Nat
  argc : Nat
deriving DecidableEq, Repr

/-- The state the file works on.
* `zjs_timers`: the global list of line 31, head first;
* `heap`: how many more timer records the kernel heap can hand out;
* `refs`: the reference count of every JavaScript object;
* `queue`: the calls made to `zjs_queue_callback`, oldest first. -/
structure State where
  zjs_timers : List zjs_timer_t
  heap : Nat
  refs : jerry_api_object_t → Nat
  queue : List zjs_callback_t

/-! ## Services the file calls -/

/-- Modelled from the spec: `task_malloc` of the kernel ("fails with
`AllocationError` if memory/capacity is exhausted"): it hands out one block
while the heap has one left and returns `NULL` (`none`) otherwise. -/
def task_malloc (s : State) : Option State :=
  if s.heap = 0 then none else some { s with heap := s.heap - 1 }

/-- Modelled from the spec: `task_free` of the kernel gives the block back. -/
def task_free (s : State) : State :=
  { s with heap := s.heap + 1 }

/-- Modelled from the spec: `jerry_api_acquire_object` takes one more claim on
the object (and returns the same pointer). -/
def jerry_api_acquire_object (obj : jerry_api_object_t) (s : State) : State :=
  { s with refs := fun o => if o = obj then s.refs o + 1 else s.refs o }

/-- Modelled from the spec: `jerry_api_release_object` gives one claim back. -/
def jerry_api_release_object (obj : jerry_api_object_t) (s : State) : State :=
  { s with refs := fun o => if o = obj then s.refs o - 1 else s.refs o }

/-- Modelled from the spec: `nano_timer_start(&timer, ticks)` arms the
countdown for `ticks` ticks. -/
def nano_timer_start (ticks : Nat) : Nat := ticks

/-- Modelled from the spec: `nano_task_timer_test(&timer, TICKS_NONE)`, the
non-blocking test "has this countdown reached zero". -/
def nano_task_timer_test (timer : Nat) : Bool := timer == 0

/-- Modelled from the spec: `zjs_queue_callback` of `zjs_util`, the enqueue of
the Callback Dispatch Sink (§6): the call is appended to the queue. -/
def zjs_queue_callback (callback : jerry_api_object_t) (args : List Nat) (argc : Nat)
    (s : State) : State :=
  { s with queue := s.queue ++ [{ callback := callback, args := args, argc := argc }] }

/-- Modelled from the spec: one tick of the clock (§6, "a monotonically
advancing tick counter"): every countdown that has not reached zero loses one
tick. -/
def clock_tick (s : State) : State :=
  { s with zjs_timers := s.zjs_timers.map fun tm => { tm with timer := tm.timer - 1 } }

/-! ## The functions of the file -/

/-- `add_timer` (lines 33-58).  The result is the returned pointer (`none` for
`NULL`) and the state afterwards. -/
def add_timer (interval : Nat) (callback : jerry_api_object_t) (repeat_ : Bool)
    (s : State) : Option jerry_api_object_t × State :=
  match task_malloc s with
  | none => (none, s)
  | some s1 =>
    let s2 := jerry_api_acquire_object callback s1
    let tm : zjs_timer_t :=
      { timer := nano_timer_start interval, interval := interval,
        repeat_ := repeat_, callback := callback }
    (some tm.callback, { s2 with zjs_timers := tm :: s2.zjs_timers })

/-- The loop of `delete_timer` (lines 68-77) on the list that starts at `*ptm`:
the first record whose `callback` is `obj` is unlinked; the result is that
record and the list without it, or `none` when the loop runs off the end. -/
def delete_timer_loop (obj : jerry_api_object_t) :
    List zjs_timer_t → Option (zjs_timer_t × List zjs_timer_t)
  | [] => none
  | tm :: rest =>
    if obj = tm.callback then some (tm, rest)
    else
      match delete_timer_loop obj rest with
      | none => none
      | some (found, rest') => some (found, tm :: rest')

/-- `delete_timer` (lines 60-79): the record found is released
(`jerry_api_release_object(tm->callback)`), its countdown is stopped together
with the record, the record is unlinked and its block freed. -/
def delete_timer (obj : jerry_api_object_t) (s : State) : Bool × State :=
  match delete_timer_loop obj s.zjs_timers with
  | none => (false, s)
  | some (tm, rest) =>
    let s1 := jerry_api_release_object tm.callback s
    (true, task_free { s1 with zjs_timers := rest })

/-- The loop of `zjs_timers_process_events` (lines 140-151) with the cursor on
the first record of the second list.  `visited` is the list in front of the
cursor as it stands now, so that the state's list is `visited ++ tm :: rest`;
`rest` is what `tm->next` leads to.  A record that is not repeating is removed
by `delete_timer (tm->callback)`, which is run on the whole list and unlinks
the first record of that callback, `tm` or one in front of it; the loop then
goes on at `tm->next`, and the list in front of it is what `delete_timer` left
there.  When the record unlinked is `tm` itself, the source reads `tm->next`
out of the block it has just freed; nothing has written to the block in
between, and the embedding takes the link as it was stored. -/
def process_events_loop : List zjs_timer_t → List zjs_timer_t → State → State
  | _, [], s => s
  | visited, tm :: rest, s =>
    if nano_task_timer_test tm.timer then
      let s1 := zjs_queue_callback tm.callback [] 0 s
      if tm.repeat_ then
        let tm' := { tm with timer := nano_timer_start tm.interval }
        process_events_loop (visited ++ [tm']) rest
          { s1 with zjs_timers := visited ++ tm' :: rest }
      else
        let s2 := (delete_timer tm.callback s1).2
        process_events_loop
          (s2.zjs_timers.take (s2.zjs_timers.length - rest.length)) rest s2
    else
      process_events_loop (visited ++ [tm]) rest s

/-- `zjs_timers_process_events` (lines 138-152): the loop from the head. -/
def zjs_timers_process_events (s : State) : State :=
  process_events_loop [] s.zjs_timers s

/-! ## Vocabulary of the statements -/

/-- The list without the first record whose callback is `obj`: what a
successful `delete_timer obj` leaves of it. -/
def unlink (obj : jerry_api_object_t) (l : List zjs_timer_t) : List zjs_timer_t :=
  l.eraseP fun tm => obj = tm.callback

/-- The countdown of the record has reached zero. -/
def expired (tm : zjs_timer_t) : Bool := nano_task_timer_test tm.timer

/-- The record is expired and is not repeating. -/
def expired_oneshot (tm : zjs_timer_t) : Bool := expired tm && !tm.repeat_

/-- The number of calls of `zjs_queue_callback` made for `h` so far. -/
def notified (h : jerry_api_object_t) (s : State) : Nat :=
  (s.queue.filter fun c => c.callback = h).length

/-- The records of the list whose callback is `h`, in list order. -/
def records_of (h : jerry_api_object_t) (l : List zjs_timer_t) : List zjs_timer_t :=
  l.filter fun tm => tm.callback = h

/-- The list `process_events_loop visited rest` ends with, written on lists
alone (`process_events_loop_spec` proves that it is that list): a record that
is expired and not repeating takes the first record of its callback out of the
list in front of the cursor, itself included. -/
def scan : List zjs_timer_t → List zjs_timer_t → List zjs_timer_t
  | visited, [] => visited
  | visited, tm :: rest =>
    if expired tm then
      if tm.repeat_ then scan (visited ++ [{ tm with timer := tm.interval }]) rest
      else scan (unlink tm.callback (visited ++ [tm])) rest
    else scan (visited ++ [tm]) rest

/-- What the spec (§4.2, steps 3 and 4) has a record become in one
`process_tick`: a record that is not expired stays as it is, an expired
repeating record is armed again for its interval, an expired record that is not
repeating is removed. -/
def after_tick (tm : zjs_timer_t) : Option zjs_timer_t :=
  if expired tm then
    if tm.repeat_ then some { tm with timer := tm.interval } else none
  else some tm

/-- The notifications the spec (§4.2, step 3a) has one `process_tick` enqueue
for a list: one for each expired record, with its callback and no arguments,
in list order. -/
def notifications (l : List zjs_timer_t) : List zjs_callback_t :=
  (l.filter expired).map fun tm => { callback := tm.callback, args := [], argc := 0 }

/-- No expired record that is not repeating has, in front of it in the list, a
record of the same callback that is anything else than expired and not
repeating. -/
def unshadowed (l : List zjs_timer_t) : Prop :=
  l.Pairwise fun r tm =>
    expired_oneshot tm = true → r.callback = tm.callback → expired_oneshot r = true

instance (l : List zjs_timer_t) : Decidable (unshadowed l) := by
  unfold unshadowed
  infer_instance

/-- Object `h` is the callback of an expired record of the list that is not
repeating. -/
def retiring (l : List zjs_timer_t) (h : jerry_api_object_t) : Bool :=
  l.any fun tm => expired_oneshot tm && tm.callback == h

/-- The operations on the state: the three of the file's public surface (§6)
and the tick of the clock. -/
inductive Op where
  | create (interval : Nat) (callback : jerry_api_object_t) (repeat_ : Bool)
  | remove (callback : jerry_api_object_t)
  | process_tick
  | tick
deriving DecidableEq, Repr

/-- The state after one operation (what the operation returns is dropped). -/
def step (s : State) : Op → State
  | Op.create interval callback repeat_ => (add_timer interval callback repeat_ s).2
  | Op.remove callback => (delete_timer callback s).2
  | Op.process_tick => zjs_timers_process_events s
  | Op.tick => clock_tick s

/-- The state after a sequence of operations, run from left to right. -/
def run (ops : List Op) (s : State) : State :=
  ops.foldl step s

/-- The clock advanced by `n` ticks. -/
def ticks : Nat → State → State
  | 0, s => s
  | n + 1, s => clock_tick (ticks n s)

/-- `n` ticks of the clock with one `zjs_timers_process_events` after each. -/
def rounds : Nat → State → State
  | 0, s => s
  | n + 1, s => zjs_timers_process_events (clock_tick (rounds n s))

/-- The operation does not create a timer for `h`. -/
def Op.avoids (h : jerry_api_object_t) : Op → Prop
  | Op.create _ callback _ => callback ≠ h
  | _ => True

/-! ## Concrete states -/

/-- An empty list of timers, `n` free blocks on the heap, no claim on any
object and an empty queue. -/
def init (n : Nat) : State :=
  { zjs_timers := [], heap := n, refs := fun _ => 0, queue := [] }

/-- A state with three timers: a repeating one for object `7` and, behind it,
two for object `9`. -/
def three_timers : State :=
  { zjs_timers :=
      [ { timer := 2, interval := 4, repeat_ := true, callback := 7 },
        { timer := 0, interval := 3, repeat_ := false, callback := 9 },
        { timer := 1, interval := 6, repeat_ := true, callback := 9 } ],
    heap := 2, refs := fun o => if o = 7 then 1 else if o = 9 then 2 else 0, queue := [] }

/-- The state `three_timers` with an exhausted heap. -/
def heap_exhausted : State := { three_timers with heap := 0 }

/-- A state reached from the empty list: a timer for object `7` that is not
repeating, then a repeating timer for the same object, then one tick.  The
list is the repeating record (4 ticks left) followed by the expired one. -/
def shadowed : State :=
  run [Op.create 1 7 false, Op.create 5 7 true, Op.tick] (init 2)

/-- A state reached from the empty list: two timers for object `7` that are
not repeating, a repeating timer for object `9`, then two ticks.  The list is
the record of `9` (2 ticks left), the younger record of `7` (7 ticks left) and
the older record of `7`, expired. -/
def shadowed_later : State :=
  run [Op.create 2 7 false, Op.create 9 7 false, Op.create 4 9 true, Op.tick, Op.tick] (init 3)

/-- Eleven timers, for the objects `1` to `11`. -/
def eleven_creates : List Op :=
  (List.range 11).map fun i => Op.create 5 (i + 1) true

/-! ## Vocabulary of the statements on creation order and intervals -/

/-- What a record keeps from its creation to its removal: interval, flag and
callback (the countdown is what changes). -/
def schedule_of (tm : zjs_timer_t) : Nat × Bool × jerry_api_object_t :=
  (tm.interval, tm.repeat_, tm.callback)

/-- The record a successful `add_timer interval callback repeat_` creates. -/
def created (c : Nat × jerry_api_object_t × Bool) : zjs_timer_t :=
  { timer := c.1, interval := c.1, repeat_ := c.2.2, callback := c.2.1 }

/-- Consecutive calls of `add_timer`, one for each triple
`(interval, callback, repeat_)`, first triple first. -/
def create_ops (cs : List (Nat × jerry_api_object_t × Bool)) : List Op :=
  cs.map fun c => Op.create c.1 c.2.1 c.2.2

/-- The operation is not a call of `add_timer` with interval `0`. -/
def Op.positive : Op → Prop
  | Op.create interval _ _ => 0 < interval
  | _ => True

/-- The operation is not a call of `add_timer`. -/
def Op.keeps : Op → Prop
  | Op.create _ _ _ => False
  | _ => True

/-! ## The native handlers -/

/-- A `jerry_api_value_t` as the handlers read it: the type tag together with
the member of the union that goes with it.  The handlers tell
`JERRY_API_DATA_TYPE_OBJECT` and `JERRY_API_DATA_TYPE_FLOAT32` from every other
tag; a float is kept as its 32 bits. -/
inductive jerry_api_value_t where
  | object (v_object : jerry_api_object_t)
  | float32 (v_float32 : Nat)
  | other (tag : Nat)
deriving DecidableEq, Repr

/-- What a native handler leaves behind: the `bool` it returns, the value
`ret_val_p` points to, and the state. -/
structure handler_result where
  returned : Bool
  ret_val : jerry_api_value_t
  state : State

/-- Modelled from the spec: `zjs_init_api_value_object` of `zjs_util` makes the
value an object value for `obj` ("surface the returned identity back to the
host", §4.3). -/
def zjs_init_api_value_object (obj : jerry_api_object_t) : jerry_api_value_t :=
  jerry_api_value_t.object obj

/-- `native_setInterval_handler` (lines 82-110).  `args_p` is the array of
arguments as it lies in memory, read at the indices `0` and `1`; `args_cnt`,
`function_obj_p` and `this_p` are not read by the handler and are left out;
`ret_val` is the value at `ret_val_p` before the call.  The conversion
`(uint32_t)(v_float32 / 1000 * CONFIG_SYS_CLOCK_TICKS_PER_SEC)`, float
arithmetic on a constant of the build, is the parameter `to_ticks`. -/
def native_setInterval_handler (to_ticks : Nat → Nat) (ret_val : jerry_api_value_t)
    (args_p : Nat → jerry_api_value_t) (s : State) : handler_result :=
  match args_p 0, args_p 1 with
  | jerry_api_value_t.object callback, jerry_api_value_t.float32 v_float32 =>
    let interval := to_ticks v_float32
    match add_timer interval callback true s with
    | (none, s1) => { returned := false, ret_val := ret_val, state := s1 }
    | (some tid, s1) =>
      { returned := true, ret_val := zjs_init_api_value_object tid, state := s1 }
  | _, _ => { returned := false, ret_val := ret_val, state := s }

/-- `native_clearInterval_handler` (lines 113-136), with the same conventions
as `native_setInterval_handler`. -/
def native_clearInterval_handler (ret_val : jerry_api_value_t)
    (args_p : Nat → jerry_api_value_t) (s : State) : handler_result :=
  match args_p 0 with
  | jerry_api_value_t.object tid =>
    match delete_timer tid s with
    | (false, s1) => { returned := false, ret_val := ret_val, state := s1 }
    | (true, s1) => { returned := true, ret_val := ret_val, state := s1 }
  | _ => { returned := false, ret_val := ret_val, state := s }

/-- An array of arguments: the values given, and values of another type
behind them. -/
def args_of (vs : List jerry_api_value_t) : Nat → jerry_api_value_t :=
  fun i => vs.getD i (jerry_api_value_t.other 0)

/-! ## The list in memory

The list model has no addresses.  To follow which block is read when, the two
loops are written once more on the blocks themselves: `delete_timer_mem` and
`zjs_timers_process_events_mem` are the same two functions of the file, line
by line, with `next` a pointer and `task_free` a mark on the block.  The claims
on the callbacks and the count of free blocks, which the list model follows,
have no part in the reads and are left out. -/

/-- A block of the kernel heap that holds a `struct zjs_timer_t`: the fields
the list model keeps, the pointer `next` (`0` is `NULL`), and whether
`task_free` has been called on the block.  A freed block keeps what was
written to it until the heap hands it out again. -/
structure block where
  tm : zjs_timer_t
  next : Nat
  freed : Bool
deriving DecidableEq, Repr

/-- The timers as they lie in memory: the global `zjs_timers` (`0` is `NULL`),
the blocks (the block at address `a > 0` is `blocks[a - 1]`), the calls made to
`zjs_queue_callback`, and the log of the reads made from a block after
`task_free`: the addresses of the blocks, in the order of the reads. -/
structure Memory where
  zjs_timers : Nat
  blocks : List block
  queue : List zjs_callback_t
  stale_reads : List Nat
deriving DecidableEq, Repr

/-- The block at an address, `none` for `NULL` and for an address that holds
no record. -/
def Memory.deref (m : Memory) (a : Nat) : Option block :=
  if a = 0 then none else m.blocks.get? (a - 1)

/-- A read of a field of the block at `a`; a read from a freed block is
logged. -/
def Memory.read (m : Memory) (a : Nat) : Memory :=
  match m.deref a with
  | some b => if b.freed then { m with stale_reads := m.stale_reads ++ [a] } else m
  | none => m

/-- The block at `a` overwritten. -/
def Memory.write (m : Memory) (a : Nat) (b : block) : Memory :=
  if a = 0 then m else { m with blocks := m.blocks.set (a - 1) b }

/-- `task_free` on the block at `a`. -/
def Memory.free (m : Memory) (a : Nat) : Memory :=
  match m.deref a with
  | some b => m.write a { b with freed := true }
  | none => m

/-- What `ptm` of `delete_timer` points to: the global `zjs_timers` or the
field `next` of the block at an address. -/
inductive link where
  | head
  | next (a : Nat)
deriving DecidableEq, Repr

/-- The pointer `*ptm`. -/
def Memory.load (m : Memory) : link → Nat
  | link.head => m.zjs_timers
  | link.next a =>
    match m.deref a with
    | some b => b.next
    | none => 0

/-- The read of `*ptm`, logged like every read when `ptm` points into a freed
block. -/
def Memory.read_link (m : Memory) : link → Memory
  | link.head => m
  | link.next a => m.read a

/-- The assignment `*ptm = v`. -/
def Memory.store (m : Memory) (v : Nat) : link → Memory
  | link.head => { m with zjs_timers := v }
  | link.next a =>
    match m.deref a with
    | some b => m.write a { b with next := v }
    | none => m

/-- The loop of `delete_timer` (lines 68-77) on the blocks, from `ptm` on, for
at most `fuel` records: `*ptm` is read, then `tm->callback`; on a match
`*ptm = tm->next` and `task_free(tm)`. -/
def delete_timer_mem : Nat → jerry_api_object_t → link → Memory → Bool × Memory
  | 0, _, _, m => (false, m)
  | fuel + 1, obj, ptm, m =>
    let m0 := m.read_link ptm
    let tm := m0.load ptm
    match m0.deref tm with
    | none => (false, m0)
    | some b =>
      let m1 := m0.read tm
      if obj = b.tm.callback then
        (true, (m1.store b.next ptm).free tm)
      else delete_timer_mem fuel obj (link.next tm) m1

/-- The loop of `zjs_timers_process_events` (lines 140-151) on the blocks, with
the cursor `tm`, for at most `fuel` records.  The body reads the fields of
`*tm`; the step `tm = tm->next` reads `*tm` once more, after the body. -/
def process_events_mem : Nat → Nat → Memory → Memory
  | 0, _, m => m
  | fuel + 1, tm, m =>
    match m.deref tm with
    | none => m
    | some b =>
      let m1 := m.read tm
      let m2 :=
        if nano_task_timer_test b.tm.timer then
          let m1' := { m1 with queue := m1.queue ++
            [{ callback := b.tm.callback, args := [], argc := 0 }] }
          if b.tm.repeat_ then
            m1'.write tm { b with tm := { b.tm with timer := nano_timer_start b.tm.interval } }
          else (delete_timer_mem m1'.blocks.length b.tm.callback link.head m1').2
        else m1
      let m3 := m2.read tm
      match m3.deref tm with
      | none => m3
      | some b' => process_events_mem fuel b'.next m3

/-- `zjs_timers_process_events` (lines 138-152) on the blocks: the loop from
`zjs_timers`; a list without a cycle has no more records than there are
blocks. -/
def zjs_timers_process_events_mem (m : Memory) : Memory :=
  process_events_mem m.blocks.length m.zjs_timers m

/-- The records of the list that starts at address `a`, in list order, for at
most `fuel` records. -/
def Memory.records : Nat → Nat → Memory → List zjs_timer_t
  | 0, _, _ => []
  | fuel + 1, a, m =>
    match m.deref a with
    | none => []
    | some b => b.tm :: Memory.records fuel b.next m

/-- The list of timers a memory holds. -/
def Memory.timers (m : Memory) : List zjs_timer_t :=
  Memory.records m.blocks.length m.zjs_timers m

/-- Two timers in memory: at address `2`, the head of the list, an expired
timer for object `7` that is not repeating; behind it, at address `1`, an
expired repeating timer for object `9`.  Both blocks are in use. -/
def due_in_memory : Memory :=
  { zjs_timers := 2,
    blocks :=
      [ { tm := { timer := 0, interval := 4, repeat_ := true, callback := 9 },
          next := 0, freed := false },
        { tm := { timer := 0, interval := 5, repeat_ := false, callback := 7 },
          next := 1, freed := false } ],
    queue := [], stale_reads := [] }

/-- The list state that holds the timers of a memory, with their queue; the
heap and the claims, which a memory does not follow, are set to nothing. -/
def Memory.state (m : Memory) : State :=
  { zjs_timers := m.timers, heap := 0, refs := fun _ => 0, queue := m.queue }

end ZjsTimers

namespace ZjsTimers

/-! ## `delete_timer` -/

theorem delete_timer_loop_eq_none (obj : jerry_api_object_t) (l : List zjs_timer_t) :
    delete_timer_loop obj l = none ↔ ∀ tm ∈ l, tm.callback ≠ obj := by
  induction l with
  | nil => simp [delete_timer_loop]
  | cons a l ih =>
    by_cases h : obj = a.callback
    · simp [delete_timer_loop, h]
    · have h' : a.callback ≠ obj := fun e => h e.symm
      cases hd : delete_timer_loop obj l with
      | none => simpa [delete_timer_loop, h, hd, h'] using ih.mp hd
      | some p =>
        have : ¬ ∀ tm ∈ l, tm.callback ≠ obj := fun hall => by
          rw [ih.mpr hall] at hd; cases hd
        simp [delete_timer_loop, h, hd, h']
        simpa using this

theorem delete_timer_loop_eq_some (obj : jerry_api_object_t) (l : List zjs_timer_t)
    (tm : zjs_timer_t) (l' : List zjs_timer_t)
    (h : delete_timer_loop obj l = some (tm, l')) :
    ∃ pre post, l = pre ++ tm :: post ∧ (∀ r ∈ pre, r.callback ≠ obj) ∧
      tm.callback = obj ∧ l' = pre ++ post := by
  induction l generalizing l' with
  | nil => simp [delete_timer_loop] at h
  | cons a l ih =>
    by_cases hc : obj = a.callback
    · simp [delete_timer_loop, hc] at h
      obtain ⟨rfl, rfl⟩ := h
      exact ⟨[], l, rfl, by simp, hc.symm, rfl⟩
    · cases hd : delete_timer_loop obj l with
      | none => simp [delete_timer_loop, hc, hd] at h
      | some p =>
        obtain ⟨found, rest'⟩ := p
        simp [delete_timer_loop, hc, hd] at h
        obtain ⟨rfl, rfl⟩ := h
        obtain ⟨pre, post, h1, h2, h3, h4⟩ := ih rest' hd
        refine ⟨a :: pre, post, by simp [h1], ?_, h3, by simp [h4]⟩
        intro r hr
        rcases List.mem_cons.mp hr with rfl | hr
        · exact fun e => hc e.symm
        · exact h2 r hr

theorem unlink_of_split (obj : jerry_api_object_t) (pre post : List zjs_timer_t)
    (tm : zjs_timer_t) (hpre : ∀ r ∈ pre, r.callback ≠ obj) (htm : tm.callback = obj) :
    unlink obj (pre ++ tm :: post) = pre ++ post := by
  unfold unlink
  rw [List.eraseP_append_right]
  · simp [List.eraseP_cons, htm]
  · intro b hb
    simpa using fun e => hpre b hb e.symm

theorem delete_timer_loop_unlink (obj : jerry_api_object_t) (l : List zjs_timer_t)
    (tm : zjs_timer_t) (l' : List zjs_timer_t)
    (h : delete_timer_loop obj l = some (tm, l')) : l' = unlink obj l := by
  obtain ⟨pre, post, h1, h2, h3, h4⟩ := delete_timer_loop_eq_some obj l tm l' h
  rw [h1, h4, unlink_of_split obj pre post tm h2 h3]

/-- C1: `delete_timer h` returns `true` exactly when the list holds a record
whose callback is `h`, and when it returns `false` the state (the list, every
record in it, and everything else) is the one it was called in. -/
theorem delete_timer_true_iff (h : jerry_api_object_t) (s : State) :
    ((delete_timer h s).1 = true ↔ ∃ tm ∈ s.zjs_timers, tm.callback = h) ∧
    ((delete_timer h s).1 = false → (delete_timer h s).2 = s) := by
  cases hd : delete_timer_loop h s.zjs_timers with
  | none =>
    have hall := (delete_timer_loop_eq_none h s.zjs_timers).mp hd
    have e : delete_timer h s = (false, s) := by simp [delete_timer, hd]
    rw [e]
    refine ⟨⟨fun hf => by simp at hf, ?_⟩, fun _ => rfl⟩
    rintro ⟨tm, hmem, he⟩
    exact absurd he (hall tm hmem)
  | some p =>
    obtain ⟨tm, rest⟩ := p
    obtain ⟨pre, post, h1, _, h3, _⟩ := delete_timer_loop_eq_some h s.zjs_timers tm rest hd
    have e : (delete_timer h s).1 = true := by simp [delete_timer, hd]
    rw [e]
    refine ⟨⟨fun _ => ⟨tm, ?_, h3⟩, fun _ => rfl⟩, fun hf => by simp at hf⟩
    rw [h1]
    simp

/-- C2: when `delete_timer h` returns `true`, the list afterwards is the list
before with one record of callback `h` taken out (the first such record):
everything in front of it and behind it stays, in order and with all fields,
so the length drops by one and the records of every other callback are the
ones there were. -/
theorem delete_timer_removes_one (h : jerry_api_object_t) (s : State)
    (hret : (delete_timer h s).1 = true) :
    (∃ pre tm post, s.zjs_timers = pre ++ tm :: post ∧ tm.callback = h ∧
        (∀ r ∈ pre, r.callback ≠ h) ∧
        (delete_timer h s).2.zjs_timers = pre ++ post) ∧
    (delete_timer h s).2.zjs_timers.length + 1 = s.zjs_timers.length ∧
    (∀ h', h' ≠ h →
        records_of h' (delete_timer h s).2.zjs_timers = records_of h' s.zjs_timers) := by
  cases hd : delete_timer_loop h s.zjs_timers with
  | none => simp [delete_timer, hd] at hret
  | some p =>
    obtain ⟨tm, rest⟩ := p
    obtain ⟨pre, post, h1, h2, h3, h4⟩ := delete_timer_loop_eq_some h s.zjs_timers tm rest hd
    have hl : (delete_timer h s).2.zjs_timers = pre ++ post := by
      simp [delete_timer, hd, task_free, jerry_api_release_object, h4]
    refine ⟨⟨pre, tm, post, h1, h3, h2, hl⟩, ?_, ?_⟩
    · rw [hl, h1]; simp; omega
    · intro h' hne
      rw [hl, h1]
      have : ¬ tm.callback = h' := fun e => hne (by rw [← e, h3])
      simp [records_of, this]

/-- C2, at a concrete state: the second of three records is deleted. -/
theorem delete_timer_removes_one_witness :
    (delete_timer 9 three_timers).1 = true ∧
    (delete_timer 9 three_timers).2.zjs_timers.length + 1 = three_timers.zjs_timers.length :=
  ⟨by decide, (delete_timer_removes_one 9 three_timers (by decide)).2.1⟩

theorem add_timer_of_alloc (interval : Nat) (h : jerry_api_object_t) (repeat_ : Bool)
    (s : State) (halloc : task_malloc s ≠ none) :
    add_timer interval h repeat_ s =
      (some h,
        { zjs_timers :=
            { timer := interval, interval := interval, repeat_ := repeat_, callback := h }
              :: s.zjs_timers,
          heap := s.heap - 1,
          refs := fun o => if o = h then s.refs o + 1 else s.refs o,
          queue := s.queue }) := by
  have hheap : s.heap ≠ 0 := by
    intro h0
    exact halloc (by simp [task_malloc, h0])
  simp [add_timer, task_malloc, hheap, jerry_api_acquire_object, nano_timer_start]

/-- C3: when the allocation succeeds, `add_timer interval h repeat_` returns `h`
and puts one new record, with interval `interval`, flag `repeat_`, callback `h`
and the countdown armed for `interval` ticks, in front of the list, whose
records all stay as they were, whether or not one of them has callback `h`;
one more claim on `h` is held.  This holds for every `interval`, so for every
`interval > 0`. -/
theorem add_timer_success (interval : Nat) (h : jerry_api_object_t) (repeat_ : Bool)
    (s : State) (halloc : task_malloc s ≠ none) :
    (add_timer interval h repeat_ s).1 = some h ∧
    (add_timer interval h repeat_ s).2.zjs_timers =
      { timer := interval, interval := interval, repeat_ := repeat_, callback := h }
        :: s.zjs_timers ∧
    (add_timer interval h repeat_ s).2.refs h = s.refs h + 1 ∧
    (∀ o, o ≠ h → (add_timer interval h repeat_ s).2.refs o = s.refs o) ∧
    (add_timer interval h repeat_ s).2.queue = s.queue := by
  rw [add_timer_of_alloc interval h repeat_ s halloc]
  simp

/-- C3, at a concrete state that already holds two records for object `9`. -/
theorem add_timer_success_witness :
    task_malloc three_timers ≠ none ∧
    (add_timer 5 9 false three_timers).2.zjs_timers =
      { timer := 5, interval := 5, repeat_ := false, callback := 9 }
        :: three_timers.zjs_timers :=
  ⟨by simp [task_malloc, three_timers],
    (add_timer_success 5 9 false three_timers (by simp [task_malloc, three_timers])).2.1⟩

/-- C5: when `task_malloc` fails, `add_timer` returns `NULL` and the state is
the one it was called in: no claim is taken, no countdown is started and the
list is as it was. -/
theorem add_timer_alloc_failure (interval : Nat) (h : jerry_api_object_t) (repeat_ : Bool)
    (s : State) (hfail : task_malloc s = none) :
    add_timer interval h repeat_ s = (none, s) := by
  simp [add_timer, hfail]

/-- C5, at a concrete state whose heap is exhausted. -/
theorem add_timer_alloc_failure_witness :
    task_malloc heap_exhausted = none ∧
    add_timer 5 9 false heap_exhausted = (none, heap_exhausted) :=
  ⟨by simp [task_malloc, heap_exhausted],
    add_timer_alloc_failure 5 9 false heap_exhausted (by simp [task_malloc, heap_exhausted])⟩

/-! ## `zjs_timers_process_events`: the loop -/

theorem delete_timer_of_mem (obj : jerry_api_object_t) (s : State)
    (hmem : ∃ tm ∈ s.zjs_timers, tm.callback = obj) :
    delete_timer obj s =
      (true, { zjs_timers := unlink obj s.zjs_timers, heap := s.heap + 1,
               refs := fun o => if o = obj then s.refs o - 1 else s.refs o,
               queue := s.queue }) := by
  cases hd : delete_timer_loop obj s.zjs_timers with
  | none =>
    obtain ⟨tm, hin, he⟩ := hmem
    exact absurd he ((delete_timer_loop_eq_none obj s.zjs_timers).mp hd tm hin)
  | some p =>
    obtain ⟨tm, rest⟩ := p
    have hu := delete_timer_loop_unlink obj s.zjs_timers tm rest hd
    obtain ⟨_, _, _, _, h3, _⟩ := delete_timer_loop_eq_some obj s.zjs_timers tm rest hd
    simp [delete_timer, hd, task_free, jerry_api_release_object, hu, h3]

theorem unlink_append_cursor (visited rest : List zjs_timer_t) (tm : zjs_timer_t) :
    unlink tm.callback (visited ++ tm :: rest) = unlink tm.callback (visited ++ [tm]) ++ rest := by
  have e : visited ++ tm :: rest = (visited ++ [tm]) ++ rest := by simp
  rw [e]
  unfold unlink
  exact List.eraseP_append_left (a := tm) (by simp) _ (by simp)

theorem length_unlink_cursor (visited : List zjs_timer_t) (tm : zjs_timer_t) :
    (unlink tm.callback (visited ++ [tm])).length = visited.length := by
  unfold unlink
  rw [List.length_eraseP_of_mem (a := tm) (by simp) (by simp)]
  simp

/-- The loop of `zjs_timers_process_events`, in every state: the list it ends
with is `scan visited rest`, one notification is enqueued for each expired
record behind the cursor, and each expired record that is not repeating gives
one block back and releases one claim on its callback. -/
theorem process_events_loop_spec (rest : List zjs_timer_t) :
    ∀ (visited : List zjs_timer_t) (s : State), s.zjs_timers = visited ++ rest →
      process_events_loop visited rest s =
        { zjs_timers := scan visited rest,
          heap := s.heap + (rest.filter expired_oneshot).length,
          refs := fun o =>
            s.refs o - (rest.filter fun tm => expired_oneshot tm && tm.callback = o).length,
          queue := s.queue ++ notifications rest } := by
  induction rest with
  | nil =>
    intro visited s hs
    obtain ⟨l, hp, rf, q⟩ := s
    simp only [List.append_nil] at hs
    subst hs
    simp [process_events_loop, scan, notifications]
  | cons tm rest ih =>
    intro visited s hs
    by_cases hexp : nano_task_timer_test tm.timer = true
    · by_cases hrep : tm.repeat_ = true
      · have hx : expired tm = true := hexp
        have ho : expired_oneshot tm = false := by simp [expired_oneshot, hrep]
        rw [process_events_loop, if_pos hexp, if_pos hrep]
        simp only []
        rw [ih _ _ (by simp)]
        simp [scan, hx, hrep, ho, notifications, zjs_queue_callback, nano_timer_start]
      · have hx : expired tm = true := hexp
        have ho : expired_oneshot tm = true := by simp [expired_oneshot, hx, hrep]
        have hmem : ∃ r ∈ (zjs_queue_callback tm.callback [] 0 s).zjs_timers,
            r.callback = tm.callback := ⟨tm, by simp [zjs_queue_callback, hs], rfl⟩
        rw [process_events_loop, if_pos hexp, if_neg hrep]
        simp only []
        rw [delete_timer_of_mem _ _ hmem]
        have hl : (zjs_queue_callback tm.callback [] 0 s).zjs_timers = visited ++ tm :: rest := by
          simp [zjs_queue_callback, hs]
        simp only [hl]
        rw [unlink_append_cursor]
        have ht : List.take ((unlink tm.callback (visited ++ [tm]) ++ rest).length - rest.length)
            (unlink tm.callback (visited ++ [tm]) ++ rest) = unlink tm.callback (visited ++ [tm]) := by
          simp
        rw [ht, ih _ _ rfl]
        simp [scan, hx, hrep, ho, notifications, zjs_queue_callback]
        refine ⟨by omega, ?_⟩
        funext o
        by_cases hc : tm.callback = o
        · simp [hc, List.filter_cons, ho]; omega
        · have hc' : ¬ o = tm.callback := fun e => hc e.symm
          simp [hc, hc', List.filter_cons]
    · have hx : expired tm = false := by simpa [expired] using hexp
      have ho : expired_oneshot tm = false := by simp [expired_oneshot, hx]
      rw [process_events_loop, if_neg hexp]
      rw [ih _ _ (by simp [hs])]
      simp [scan, hx, ho, notifications]

theorem process_events_spec (s : State) :
    zjs_timers_process_events s =
      { zjs_timers := scan [] s.zjs_timers,
        heap := s.heap + (s.zjs_timers.filter expired_oneshot).length,
        refs := fun o =>
          s.refs o - (s.zjs_timers.filter fun tm => expired_oneshot tm && tm.callback = o).length,
        queue := s.queue ++ notifications s.zjs_timers } :=
  process_events_loop_spec s.zjs_timers [] s rfl

/-! ## `scan`: records of different callbacks do not meet -/

theorem filter_unlink (q : jerry_api_object_t → Bool) (c : jerry_api_object_t)
    (l : List zjs_timer_t) :
    (unlink c l).filter (fun tm => q tm.callback) =
      if q c = true then unlink c (l.filter fun tm => q tm.callback)
      else l.filter fun tm => q tm.callback := by
  induction l with
  | nil => simp [unlink]
  | cons a l ih =>
    unfold unlink at ih ⊢
    by_cases hc : c = a.callback
    · subst hc
      by_cases hq : q a.callback = true
      · simp [List.eraseP_cons, hq]
      · simp [List.eraseP_cons, hq]
    · by_cases hq : q a.callback = true
      · by_cases hqc : q c = true
        · simp [List.eraseP_cons, hc, hq, hqc, List.filter_cons] at ih ⊢
          exact ih
        · simp [List.eraseP_cons, hc, hq, hqc, List.filter_cons] at ih ⊢
          exact ih
      · by_cases hqc : q c = true
        · simp [List.eraseP_cons, hc, hq, hqc, List.filter_cons] at ih ⊢
          exact ih
        · simp [List.eraseP_cons, hc, hq, hqc, List.filter_cons] at ih ⊢
          exact ih

/-- Keeping the records whose callback satisfies `q` commutes with the scan:
what happens to the records of one set of callbacks does not depend on the
records of the other callbacks. -/
theorem filter_scan (q : jerry_api_object_t → Bool) (rest : List zjs_timer_t) :
    ∀ visited : List zjs_timer_t,
      (scan visited rest).filter (fun tm => q tm.callback) =
        scan (visited.filter fun tm => q tm.callback) (rest.filter fun tm => q tm.callback) := by
  induction rest with
  | nil => intro visited; simp [scan]
  | cons tm rest ih =>
    intro visited
    by_cases hq : q tm.callback = true
    · by_cases hx : expired tm = true
      · by_cases hrep : tm.repeat_ = true
        · simp [scan, hx, hrep, hq, List.filter_cons, ih]
        · simp [scan, hx, hrep, hq, List.filter_cons, ih, filter_unlink]
      · simp [scan, hx, hq, List.filter_cons, ih]
    · by_cases hx : expired tm = true
      · by_cases hrep : tm.repeat_ = true
        · simp [scan, hx, hrep, hq, List.filter_cons, ih]
        · simp [scan, hx, hrep, hq, List.filter_cons, ih, filter_unlink]
      · simp [scan, hx, hq, List.filter_cons, ih]

theorem unlink_cursor_of_not_mem (visited : List zjs_timer_t) (tm : zjs_timer_t)
    (h : ∀ r ∈ visited, r.callback ≠ tm.callback) :
    unlink tm.callback (visited ++ [tm]) = visited := by
  simpa using unlink_of_split tm.callback visited [] tm h rfl

/-- The scan of a list that is `unshadowed`, behind a visited part that holds
no callback of an expired record that is not repeating: every record becomes
what `after_tick` says. -/
theorem scan_unshadowed (rest : List zjs_timer_t) :
    ∀ visited : List zjs_timer_t, unshadowed rest →
      (∀ tm ∈ rest, expired_oneshot tm = true → ∀ r ∈ visited, r.callback ≠ tm.callback) →
      scan visited rest = visited ++ rest.filterMap after_tick := by
  induction rest with
  | nil => intro visited _ _; simp [scan]
  | cons tm rest ih =>
    intro visited hu hv
    obtain ⟨hhead, htail⟩ := List.pairwise_cons.mp hu
    have hv' : ∀ x ∈ rest, expired_oneshot x = true → ∀ r ∈ visited, r.callback ≠ x.callback :=
      fun x hx => hv x (List.mem_cons_of_mem _ hx)
    by_cases hx : expired tm = true
    · by_cases hrep : tm.repeat_ = true
      · have ho : expired_oneshot tm = false := by simp [expired_oneshot, hrep]
        rw [scan, if_pos hx, if_pos hrep, ih _ htail]
        · simp [after_tick, hx, hrep]
        · intro x hxm hxo r hr
          rcases List.mem_append.mp hr with hr | hr
          · exact hv' x hxm hxo r hr
          · simp at hr
            subst hr
            intro e
            have := hhead x hxm hxo e
            simp [ho] at this
      · rw [scan, if_pos hx, if_neg hrep,
          unlink_cursor_of_not_mem visited tm
            (hv tm (List.mem_cons_self _ _) (by simp [expired_oneshot, hx, hrep])),
          ih _ htail hv']
        simp [after_tick, hx, hrep]
    · have ho : expired_oneshot tm = false := by simp [expired_oneshot, hx]
      rw [scan, if_neg hx, ih _ htail]
      · simp [after_tick, hx]
      · intro x hxm hxo r hr
        rcases List.mem_append.mp hr with hr | hr
        · exact hv' x hxm hxo r hr
        · simp at hr
          subst hr
          intro e
          have := hhead x hxm hxo e
          simp [ho] at this

theorem length_scan (rest : List zjs_timer_t) :
    ∀ visited : List zjs_timer_t,
      (scan visited rest).length + (rest.filter expired_oneshot).length =
        visited.length + rest.length := by
  induction rest with
  | nil => intro visited; simp [scan]
  | cons tm rest ih =>
    intro visited
    by_cases hx : expired tm = true
    · by_cases hrep : tm.repeat_ = true
      · have := ih (visited ++ [{ tm with timer := tm.interval }])
        simp [scan, hx, hrep, expired_oneshot, List.filter_cons] at this ⊢
        omega
      · have := ih (unlink tm.callback (visited ++ [tm]))
        rw [length_unlink_cursor] at this
        simp [scan, hx, hrep, expired_oneshot, List.filter_cons] at this ⊢
        omega
    · have := ih (visited ++ [tm])
      simp [scan, hx, expired_oneshot, List.filter_cons] at this ⊢
      omega

/-! ## `zjs_timers_process_events`: one call -/

/-- One `zjs_timers_process_events`, in every state, enqueues one notification,
with the record's callback and no arguments, for each record that is expired
when the call starts, in list order, and none else; and in a state that is
`unshadowed` the list afterwards is the list before with every record that was
not expired unchanged, every expired repeating record armed for its interval
and every expired record that is not repeating removed. -/
theorem process_events_unshadowed (s : State) :
    (zjs_timers_process_events s).queue = s.queue ++ notifications s.zjs_timers ∧
    (unshadowed s.zjs_timers →
      (zjs_timers_process_events s).zjs_timers = s.zjs_timers.filterMap after_tick) := by
  rw [process_events_spec]
  refine ⟨rfl, fun hu => ?_⟩
  simpa using scan_unshadowed s.zjs_timers [] hu (by simp)

/-- The state `three_timers` is `unshadowed`: of its two records of object `9`
the first is the expired one; it is removed and the other two records stay. -/
theorem process_events_unshadowed_example :
    unshadowed three_timers.zjs_timers ∧
    (zjs_timers_process_events three_timers).zjs_timers =
      three_timers.zjs_timers.filterMap after_tick :=
  ⟨by decide, (process_events_unshadowed three_timers).2 (by decide)⟩

/-- C6: after one `zjs_timers_process_events` the list is to hold the records
that were not expired, unchanged, and the expired repeating records, armed
again, every expired record that is not repeating being removed.  In the state
`shadowed` the code does otherwise: the one notification due is enqueued, but
the expired record of object `7`, which is not repeating, is still in the list
after the call, and the repeating record of object `7`, which had 4 ticks
left, has been removed in its place. -/
theorem process_events_same_tick_shadowed :
    shadowed.zjs_timers =
      [ { timer := 4, interval := 5, repeat_ := true, callback := 7 },
        { timer := 0, interval := 1, repeat_ := false, callback := 7 } ] ∧
    (zjs_timers_process_events shadowed).queue =
      [ { callback := 7, args := [], argc := 0 } ] ∧
    (zjs_timers_process_events shadowed).zjs_timers =
      [ { timer := 0, interval := 1, repeat_ := false, callback := 7 } ] ∧
    shadowed.zjs_timers.filterMap after_tick =
      [ { timer := 4, interval := 5, repeat_ := true, callback := 7 } ] := by
  decide

theorem filter_unexpired_sublist_filterMap (l : List zjs_timer_t) :
    (l.filter fun tm => !expired tm).Sublist (l.filterMap after_tick) := by
  induction l with
  | nil => simp
  | cons a l ih =>
    by_cases hx : expired a = true
    · by_cases hrep : a.repeat_ = true
      · simpa [List.filter_cons, hx, after_tick, hrep] using ih.cons _
      · simpa [List.filter_cons, hx, after_tick, hrep] using ih
    · simpa [List.filter_cons, hx, after_tick] using ih.cons₂ a

theorem retiring_of_mem (l : List zjs_timer_t) (tm : zjs_timer_t) (hmem : tm ∈ l)
    (ho : expired_oneshot tm = true) : retiring l tm.callback = true := by
  simp only [retiring, List.any_eq_true]
  exact ⟨tm, hmem, by simp [ho]⟩

/-- In every state, the records that are not expired and whose callback is not
the callback of an expired record that is not repeating are all in the list
after `zjs_timers_process_events`, in the order they had and with every field
unchanged; each such record is therefore still in the list; and when no two
records of the list share a callback this covers every record that is not
expired. -/
theorem process_events_keeps_unexpired (s : State) :
    (s.zjs_timers.filter fun tm => !expired tm && !retiring s.zjs_timers tm.callback).Sublist
      (zjs_timers_process_events s).zjs_timers ∧
    (∀ tm ∈ s.zjs_timers, expired tm = false → retiring s.zjs_timers tm.callback = false →
      tm ∈ (zjs_timers_process_events s).zjs_timers) ∧
    ((s.zjs_timers.map fun tm => tm.callback).Nodup →
      (s.zjs_timers.filter fun tm => !expired tm).Sublist
        (zjs_timers_process_events s).zjs_timers) := by
  have key : (s.zjs_timers.filter fun tm => !expired tm && !retiring s.zjs_timers tm.callback).Sublist
      (zjs_timers_process_events s).zjs_timers := by
    rw [process_events_spec]
    show List.Sublist _ (scan [] s.zjs_timers)
    have hq := filter_scan (fun c => !retiring s.zjs_timers c) s.zjs_timers []
    simp only [List.filter_nil] at hq
    have hno : ∀ tm ∈ s.zjs_timers.filter (fun tm => !retiring s.zjs_timers tm.callback),
        expired_oneshot tm = false := by
      intro tm htm
      obtain ⟨hmem, hr⟩ := List.mem_filter.mp htm
      by_contra ho
      have := retiring_of_mem s.zjs_timers tm hmem (by simpa using ho)
      simp [this] at hr
    have hs := scan_unshadowed
      (s.zjs_timers.filter fun tm => !retiring s.zjs_timers tm.callback) []
      (List.pairwise_of_forall_mem_list fun a _ b hb hob => by
        rw [hno b hb] at hob; cases hob)
      (by simp)
    rw [hs, List.nil_append] at hq
    have h1 := filter_unexpired_sublist_filterMap
      (s.zjs_timers.filter fun tm => !retiring s.zjs_timers tm.callback)
    rw [← hq, List.filter_filter] at h1
    exact h1.trans (List.filter_sublist _)
  refine ⟨key, ?_, ?_⟩
  · intro tm hmem hx hr
    exact key.subset (List.mem_filter.mpr ⟨hmem, by simp [hx, hr]⟩)
  · intro hnd
    have e : (s.zjs_timers.filter fun tm => !expired tm) =
        s.zjs_timers.filter fun tm => !expired tm && !retiring s.zjs_timers tm.callback := by
      apply List.filter_congr
      intro tm hmem
      by_cases hx : expired tm = true
      · simp [hx]
      · have hr : retiring s.zjs_timers tm.callback = false := by
          by_contra hr
          simp only [Bool.not_eq_false, retiring, List.any_eq_true, Bool.and_eq_true,
            beq_iff_eq] at hr
          obtain ⟨r, hrm, hro, hrc⟩ := hr
          have : r = tm := List.inj_on_of_nodup_map hnd hrm hmem hrc
          subst this
          simp [expired_oneshot] at hro
          exact hx hro.1
        simp [hx, hr]
    rw [e]
    exact key

/-- In the state `three_timers` the record of object `7`, which is not expired,
stays while the expired record of object `9` is removed. -/
theorem process_events_keeps_unexpired_example :
    expired { timer := 2, interval := 4, repeat_ := true, callback := 7 } = false ∧
    retiring three_timers.zjs_timers 7 = false ∧
    ({ timer := 2, interval := 4, repeat_ := true, callback := 7 } : zjs_timer_t) ∈
      (zjs_timers_process_events three_timers).zjs_timers :=
  ⟨by decide, by decide,
    (process_events_keeps_unexpired three_timers).2.1
      { timer := 2, interval := 4, repeat_ := true, callback := 7 }
      (by decide) (by decide) (by decide)⟩

/-- C7: `zjs_timers_process_events` is to leave every record that is not
expired in the list, untouched, also when records share a callback.  In the
state `shadowed_later` the code does otherwise: the record of object `7` with
7 ticks left is not expired, and it is not in the list after the call; the
expired record of object `7` behind it, whose firing removed it, still is. -/
theorem process_events_drops_unexpired :
    shadowed_later.zjs_timers =
      [ { timer := 2, interval := 4, repeat_ := true, callback := 9 },
        { timer := 7, interval := 9, repeat_ := false, callback := 7 },
        { timer := 0, interval := 2, repeat_ := false, callback := 7 } ] ∧
    expired { timer := 7, interval := 9, repeat_ := false, callback := 7 } = false ∧
    ({ timer := 7, interval := 9, repeat_ := false, callback := 7 } : zjs_timer_t) ∉
      (zjs_timers_process_events shadowed_later).zjs_timers ∧
    (zjs_timers_process_events shadowed_later).zjs_timers =
      [ { timer := 2, interval := 4, repeat_ := true, callback := 9 },
        { timer := 0, interval := 2, repeat_ := false, callback := 7 } ] := by
  decide

/-! ## The heap bounds the list -/

theorem step_length_add_heap (s : State) (op : Op) :
    (step s op).zjs_timers.length + (step s op).heap = s.zjs_timers.length + s.heap := by
  cases op with
  | create interval callback repeat_ =>
    by_cases h0 : s.heap = 0
    · simp [step, add_timer, task_malloc, h0]
    · simp [step, add_timer, task_malloc, h0, jerry_api_acquire_object]
      omega
  | remove callback =>
    by_cases hmem : ∃ tm ∈ s.zjs_timers, tm.callback = callback
    · obtain ⟨tm, hin, he⟩ := hmem
      have hl : (unlink callback s.zjs_timers).length = s.zjs_timers.length - 1 := by
        unfold unlink
        exact List.length_eraseP_of_mem hin (by simp [he])
      have hpos : 0 < s.zjs_timers.length := List.length_pos_of_mem hin
      simp only [step]
      rw [delete_timer_of_mem callback s ⟨tm, hin, he⟩]
      simp only [hl]
      omega
    · have hn : delete_timer_loop callback s.zjs_timers = none :=
        (delete_timer_loop_eq_none callback s.zjs_timers).mpr
          fun tm hin he => hmem ⟨tm, hin, he⟩
      simp [step, delete_timer, hn]
  | process_tick =>
    simp only [step]
    rw [process_events_spec]
    have := length_scan s.zjs_timers []
    simp at this ⊢
    omega
  | tick => simp [step, clock_tick]

theorem run_length_add_heap (ops : List Op) :
    ∀ s : State, (run ops s).zjs_timers.length + (run ops s).heap =
      s.zjs_timers.length + s.heap := by
  induction ops with
  | nil => intro s; rfl
  | cons op ops ih =>
    intro s
    show (run ops (step s op)).zjs_timers.length + (run ops (step s op)).heap = _
    rw [ih, step_length_add_heap]

theorem add_timer_eq_none_iff (interval : Nat) (h : jerry_api_object_t) (repeat_ : Bool)
    (s : State) : (add_timer interval h repeat_ s).1 = none ↔ s.heap = 0 := by
  by_cases h0 : s.heap = 0
  · simp [add_timer, task_malloc, h0]
  · simp [add_timer, task_malloc, h0]

theorem run_creates_length (creates : List Op)
    (hc : ∀ op ∈ creates, ∃ interval callback repeat_, op = Op.create interval callback repeat_) :
    ∀ s : State, (run creates s).zjs_timers.length =
      s.zjs_timers.length + min creates.length s.heap := by
  induction creates with
  | nil => intro s; simp [run]
  | cons op ops ih =>
    intro s
    obtain ⟨interval, callback, repeat_, rfl⟩ := hc _ (List.mem_cons_self _ _)
    show (run ops (step s _)).zjs_timers.length = _
    rw [ih (fun o ho => hc o (List.mem_cons_of_mem _ ho))]
    by_cases h0 : s.heap = 0
    · simp [step, add_timer, task_malloc, h0]
    · simp [step, add_timer, task_malloc, h0, jerry_api_acquire_object]
      omega

/-- C4 (amended): `add_timer` fails exactly when the kernel heap has no block
left; `MAX_NUMBER_TIMERS` plays no part.  From the empty list and a heap with
room for `n` records, in every state reached by `add_timer`, `delete_timer`,
`zjs_timers_process_events` and ticks the records and the free blocks add up
to `n`, so that there are at most `n` records and `add_timer` fails exactly
when there are `n`; consecutive calls of `add_timer` leave as many records as
there were calls, up to `n`, so that call `n + 1` is the first that fails. -/
theorem heap_bounds_timers (n : Nat) (ops : List Op) :
    (run ops (init n)).zjs_timers.length + (run ops (init n)).heap = n ∧
    (run ops (init n)).zjs_timers.length ≤ n ∧
    (∀ interval h repeat_,
      (add_timer interval h repeat_ (run ops (init n))).1 = none ↔
        (run ops (init n)).zjs_timers.length = n) ∧
    ((∀ op ∈ ops, ∃ interval callback repeat_, op = Op.create interval callback repeat_) →
      (run ops (init n)).zjs_timers.length = min ops.length n) := by
  have hinv := run_length_add_heap ops (init n)
  have h0 : (init n).zjs_timers.length + (init n).heap = n := by simp [init]
  rw [h0] at hinv
  refine ⟨hinv, by omega, ?_, ?_⟩
  · intro interval h repeat_
    rw [add_timer_eq_none_iff]
    omega
  · intro hc
    simpa [init] using run_creates_length ops hc (init n)

/-- C4 (amended), at concrete inputs: eleven calls of `add_timer` on a heap
with room for eleven records leave eleven records. -/
theorem heap_bounds_timers_witness :
    (∀ op ∈ eleven_creates,
      ∃ interval callback repeat_, op = Op.create interval callback repeat_) ∧
    (run eleven_creates (init 11)).zjs_timers.length = min eleven_creates.length 11 :=
  ⟨by simp [eleven_creates],
    (heap_bounds_timers 11 eleven_creates).2.2.2 (by simp [eleven_creates])⟩

/-- C4 as stated fails: from the empty list and a heap with room for eleven
records, the eleventh consecutive call of `add_timer` returns its callback,
not `NULL`, and the list then holds eleven records, more than
`MAX_NUMBER_TIMERS`. -/
theorem max_number_timers_counterexample :
    (run (eleven_creates.take 10) (init 11)).zjs_timers.length = MAX_NUMBER_TIMERS ∧
    (add_timer 5 11 true (run (eleven_creates.take 10) (init 11))).1 = some 11 ∧
    (run eleven_creates (init 11)).zjs_timers.length = 11 ∧
    MAX_NUMBER_TIMERS < (run eleven_creates (init 11)).zjs_timers.length := by
  decide

/-! ## The records and notifications of one callback -/

theorem records_of_process_events (h : jerry_api_object_t) (s : State) :
    records_of h (zjs_timers_process_events s).zjs_timers =
      scan [] (records_of h s.zjs_timers) := by
  rw [process_events_spec]
  exact filter_scan (fun c => decide (c = h)) s.zjs_timers []

theorem notified_process_events (h : jerry_api_object_t) (s : State) :
    notified h (zjs_timers_process_events s) =
      notified h s + ((records_of h s.zjs_timers).filter expired).length := by
  rw [process_events_spec]
  simp only [notified, notifications, records_of, List.filter_append, List.length_append,
    List.filter_map, List.length_map, List.filter_filter]
  congr 2
  apply List.filter_congr
  intro tm _
  simp [Bool.and_comm]

theorem refs_process_events (h : jerry_api_object_t) (s : State) :
    (zjs_timers_process_events s).refs h =
      s.refs h - ((records_of h s.zjs_timers).filter expired_oneshot).length := by
  rw [process_events_spec]
  simp only [records_of, List.filter_filter]

theorem ticks_eq (n : Nat) (s : State) :
    ticks n s =
      { s with zjs_timers := s.zjs_timers.map fun tm => { tm with timer := tm.timer - n } } := by
  induction n with
  | zero => cases s; simp [ticks]
  | succ n ih =>
    rw [ticks, ih]
    simp [clock_tick, Nat.sub_add_eq]

theorem records_of_map_timer (h : jerry_api_object_t) (f : zjs_timer_t → Nat)
    (l : List zjs_timer_t) :
    records_of h (l.map fun tm => { tm with timer := f tm }) =
      (records_of h l).map fun tm => { tm with timer := f tm } := by
  simp only [records_of, List.filter_map]
  rfl

theorem records_of_add_timer (interval : Nat) (h : jerry_api_object_t) (repeat_ : Bool)
    (s : State) (halloc : task_malloc s ≠ none) :
    records_of h (add_timer interval h repeat_ s).2.zjs_timers =
      { timer := interval, interval := interval, repeat_ := repeat_, callback := h }
        :: records_of h s.zjs_timers := by
  rw [add_timer_of_alloc interval h repeat_ s halloc]
  simp [records_of]

theorem records_of_eq_nil (h : jerry_api_object_t) (l : List zjs_timer_t) :
    records_of h l = [] ↔ ∀ tm ∈ l, tm.callback ≠ h := by
  simp [records_of, List.filter_eq_nil_iff]

theorem delete_timer_of_records (h : jerry_api_object_t) (s : State) :
    (delete_timer h s).1 = decide (records_of h s.zjs_timers ≠ []) := by
  by_cases hr : records_of h s.zjs_timers = []
  · have hn := (delete_timer_loop_eq_none h s.zjs_timers).mpr ((records_of_eq_nil h _).mp hr)
    simp [delete_timer, hn, hr]
  · have hmem : ∃ tm ∈ s.zjs_timers, tm.callback = h := by
      by_contra hno
      exact hr ((records_of_eq_nil h _).mpr fun tm hin he => hno ⟨tm, hin, he⟩)
    rw [delete_timer_of_mem h s hmem]
    simp [hr]

theorem step_avoids (h : jerry_api_object_t) (s : State) (op : Op) (ha : op.avoids h)
    (hr : records_of h s.zjs_timers = []) :
    records_of h (step s op).zjs_timers = [] ∧ notified h (step s op) = notified h s := by
  cases op with
  | create interval callback repeat_ =>
    have hne : callback ≠ h := ha
    by_cases h0 : s.heap = 0
    · simp [step, add_timer, task_malloc, h0, hr]
    · simp [step, add_timer, task_malloc, h0, jerry_api_acquire_object, records_of, hne,
        notified]
      simpa [records_of] using hr
  | remove callback =>
    by_cases hmem : ∃ tm ∈ s.zjs_timers, tm.callback = callback
    · simp only [step]
      rw [delete_timer_of_mem callback s hmem]
      refine ⟨?_, rfl⟩
      have hsub : (unlink callback s.zjs_timers).Sublist s.zjs_timers := by
        unfold unlink
        exact List.eraseP_sublist _
      have := hsub.filter (fun tm => decide (tm.callback = h))
      rw [show List.filter (fun tm => decide (tm.callback = h)) s.zjs_timers = [] from hr] at this
      exact List.sublist_nil.mp this
    · have hn : delete_timer_loop callback s.zjs_timers = none :=
        (delete_timer_loop_eq_none callback s.zjs_timers).mpr
          fun tm hin he => hmem ⟨tm, hin, he⟩
      simp [step, delete_timer, hn, hr]
  | process_tick =>
    simp only [step]
    rw [records_of_process_events, notified_process_events, hr]
    simp [scan]
  | tick =>
    refine ⟨?_, rfl⟩
    simp only [step, clock_tick]
    rw [records_of_map_timer h (fun tm => tm.timer - 1), hr]
    rfl

theorem run_avoids (h : jerry_api_object_t) (ops : List Op) :
    ∀ s : State, (∀ op ∈ ops, op.avoids h) → records_of h s.zjs_timers = [] →
      records_of h (run ops s).zjs_timers = [] ∧ notified h (run ops s) = notified h s := by
  induction ops with
  | nil => intro s _ hr; exact ⟨hr, rfl⟩
  | cons op ops ih =>
    intro s ha hr
    obtain ⟨h1, h2⟩ := step_avoids h s op (ha op (List.mem_cons_self _ _)) hr
    obtain ⟨h3, h4⟩ := ih (step s op) (fun o ho => ha o (List.mem_cons_of_mem _ ho)) h1
    exact ⟨h3, by rw [← h2, ← h4]; rfl⟩

/-! ## One timer over time -/

/-- C8: for every interval `n` (in particular every `n > 0`) and every object
`h` that no record of the list has as callback, after a successful
`add_timer n h false` and `n` ticks of the clock, during which nothing is
enqueued for `h`, one `zjs_timers_process_events` enqueues exactly one
notification for `h` and removes the record, giving back the claim on `h`
that `add_timer` took; after it `delete_timer h` returns `false`, and whatever
operations follow, as long as none of them creates a timer for `h`, nothing
more is enqueued for `h`. -/
theorem oneshot_fires_once (n : Nat) (h : jerry_api_object_t) (s : State)
    (hfresh : ∀ tm ∈ s.zjs_timers, tm.callback ≠ h) (halloc : task_malloc s ≠ none) :
    notified h (ticks n (add_timer n h false s).2) = notified h s ∧
    notified h (zjs_timers_process_events (ticks n (add_timer n h false s).2)) =
      notified h s + 1 ∧
    records_of h (zjs_timers_process_events (ticks n (add_timer n h false s).2)).zjs_timers
      = [] ∧
    (zjs_timers_process_events (ticks n (add_timer n h false s).2)).refs h = s.refs h ∧
    (delete_timer h (zjs_timers_process_events (ticks n (add_timer n h false s).2))).1
      = false ∧
    (∀ ops : List Op, (∀ op ∈ ops, op.avoids h) →
      notified h (run ops (zjs_timers_process_events (ticks n (add_timer n h false s).2))) =
        notified h (zjs_timers_process_events (ticks n (add_timer n h false s).2))) := by
  have hadd := add_timer_of_alloc n h false s halloc
  have hrefs : (add_timer n h false s).2.refs h = s.refs h + 1 := by rw [hadd]; simp
  have hq : (add_timer n h false s).2.queue = s.queue := by rw [hadd]
  have hrec : records_of h (ticks n (add_timer n h false s).2).zjs_timers =
      [{ timer := 0, interval := n, repeat_ := false, callback := h }] := by
    rw [ticks_eq]
    show records_of h (List.map (fun tm : zjs_timer_t => { tm with timer := tm.timer - n }) _) = _
    rw [records_of_map_timer h (fun tm => tm.timer - n), records_of_add_timer n h false s halloc,
      (records_of_eq_nil h s.zjs_timers).mpr hfresh]
    simp
  have hnot : notified h (ticks n (add_timer n h false s).2) = notified h s := by
    rw [ticks_eq]
    simp only [notified, hq]
  have hgone :
      records_of h (zjs_timers_process_events (ticks n (add_timer n h false s).2)).zjs_timers
        = [] := by
    rw [records_of_process_events, hrec]
    simp [scan, expired, nano_task_timer_test, unlink]
  refine ⟨hnot, ?_, hgone, ?_, ?_, ?_⟩
  · rw [notified_process_events, hrec, hnot]
    simp [expired, nano_task_timer_test]
  · rw [refs_process_events, hrec, ticks_eq]
    simp [expired_oneshot, expired, nano_task_timer_test, hrefs]
  · rw [delete_timer_of_records, hgone]
    simp
  · intro ops ha
    exact (run_avoids h ops _ ha hgone).2

/-- C8, at `n = 5`: object `8` is the callback of no record of `three_timers`. -/
theorem oneshot_fires_once_witness :
    (∀ tm ∈ three_timers.zjs_timers, tm.callback ≠ 8) ∧
    task_malloc three_timers ≠ none ∧
    notified 8 (zjs_timers_process_events (ticks 5 (add_timer 5 8 false three_timers).2)) =
      notified 8 three_timers + 1 ∧
    (delete_timer 8
      (zjs_timers_process_events (ticks 5 (add_timer 5 8 false three_timers).2))).1 = false :=
  have hw := oneshot_fires_once 5 8 three_timers (by decide) (by simp [task_malloc, three_timers])
  ⟨by decide, by simp [task_malloc, three_timers], hw.2.1, hw.2.2.2.2.1⟩

/-- One tick and one `zjs_timers_process_events` in a state that holds exactly
one record of callback `h`. -/
theorem round_single (h : jerry_api_object_t) (s : State) (r : zjs_timer_t)
    (hr : records_of h s.zjs_timers = [r]) :
    (1 < r.timer →
      records_of h (zjs_timers_process_events (clock_tick s)).zjs_timers =
        [{ r with timer := r.timer - 1 }] ∧
      notified h (zjs_timers_process_events (clock_tick s)) = notified h s) ∧
    (r.timer ≤ 1 → r.repeat_ = true →
      records_of h (zjs_timers_process_events (clock_tick s)).zjs_timers =
        [{ r with timer := r.interval }] ∧
      notified h (zjs_timers_process_events (clock_tick s)) = notified h s + 1) := by
  have hrec : records_of h (clock_tick s).zjs_timers = [{ r with timer := r.timer - 1 }] := by
    simp only [clock_tick]
    rw [records_of_map_timer h (fun tm => tm.timer - 1), hr]
    rfl
  have hnot : notified h (clock_tick s) = notified h s := rfl
  constructor
  · intro ht
    have hne : ¬ r.timer - 1 = 0 := by omega
    rw [records_of_process_events, notified_process_events, hrec, hnot]
    simp [scan, expired, nano_task_timer_test, hne]
  · intro ht hrep
    have he : r.timer - 1 = 0 := by omega
    rw [records_of_process_events, notified_process_events, hrec, hnot]
    simp [scan, expired, nano_task_timer_test, he, hrep]

theorem succ_div_mod_of_last (n j : Nat) (hn : 0 < n) (hlast : j % n + 1 = n) :
    (j + 1) / n = j / n + 1 ∧ (j + 1) % n = 0 := by
  have hdm : n * (j / n) + j % n = j := Nat.div_add_mod j n
  have e : j + 1 = n * (j / n) + n := by omega
  rw [e]
  constructor
  · rw [Nat.mul_add_div hn, Nat.div_self hn]
  · simp

theorem succ_div_mod_of_not_last (n j : Nat) (hn : 0 < n) (hlast : ¬ j % n + 1 = n) :
    (j + 1) / n = j / n ∧ (j + 1) % n = j % n + 1 := by
  have hlt : j % n < n := Nat.mod_lt j hn
  have hdm : n * (j / n) + j % n = j := Nat.div_add_mod j n
  have e : j + 1 = n * (j / n) + (j % n + 1) := by omega
  have hlt' : j % n + 1 < n := by omega
  constructor
  · conv_lhs => rw [e]
    rw [Nat.mul_add_div hn, Nat.div_eq_of_lt hlt']
    simp
  · conv_lhs => rw [e]
    rw [Nat.mul_add_mod, Nat.mod_eq_of_lt hlt']

theorem rounds_repeating (n : Nat) (h : jerry_api_object_t) (s : State) (hn : 0 < n)
    (hfresh : ∀ tm ∈ s.zjs_timers, tm.callback ≠ h) (halloc : task_malloc s ≠ none) (j : Nat) :
    records_of h (rounds j (add_timer n h true s).2).zjs_timers =
      [{ timer := n - j % n, interval := n, repeat_ := true, callback := h }] ∧
    notified h (rounds j (add_timer n h true s).2) = notified h s + j / n := by
  induction j with
  | zero =>
    have hq : (add_timer n h true s).2.queue = s.queue := by
      rw [add_timer_of_alloc n h true s halloc]
    refine ⟨?_, ?_⟩
    · rw [rounds, records_of_add_timer n h true s halloc,
        (records_of_eq_nil h s.zjs_timers).mpr hfresh]
      simp
    · simp [rounds, notified, hq]
  | succ j ih =>
    obtain ⟨ih1, ih2⟩ := ih
    obtain ⟨hbig, hsmall⟩ := round_single h _ _ ih1
    have hlt : j % n < n := Nat.mod_lt j hn
    by_cases hlast : j % n + 1 = n
    · obtain ⟨hd, hmd⟩ := succ_div_mod_of_last n j hn hlast
      have hle : n - j % n ≤ 1 := by omega
      obtain ⟨h1, h2⟩ := hsmall hle rfl
      rw [rounds, h1, h2, ih2, hd, hmd]
      exact ⟨rfl, by omega⟩
    · obtain ⟨hd, hmd⟩ := succ_div_mod_of_not_last n j hn hlast
      have hgt : 1 < n - j % n := by omega
      obtain ⟨h1, h2⟩ := hbig hgt
      rw [rounds, h1, h2, ih2, hd, hmd]
      refine ⟨?_, rfl⟩
      simp only [List.cons.injEq, and_true, zjs_timer_t.mk.injEq]
      omega

/-- C9: for every interval `n > 0`, every `k` and every object `h` that no
record of the list has as callback, after a successful `add_timer n h true`
and `j` ticks with one `zjs_timers_process_events` after each, `j / n`
notifications have been enqueued for `h` (one more at each of the ticks `n`,
`2n`, ...), so exactly `k` after `k * n` ticks; the record is in the list all
along, armed for the ticks left to its next firing, and `delete_timer h`
returns `true`. -/
theorem repeating_fires_every_interval (n k : Nat) (h : jerry_api_object_t) (s : State)
    (hn : 0 < n) (hfresh : ∀ tm ∈ s.zjs_timers, tm.callback ≠ h)
    (halloc : task_malloc s ≠ none) :
    (∀ j, notified h (rounds j (add_timer n h true s).2) = notified h s + j / n ∧
      records_of h (rounds j (add_timer n h true s).2).zjs_timers =
        [{ timer := n - j % n, interval := n, repeat_ := true, callback := h }]) ∧
    notified h (rounds (k * n) (add_timer n h true s).2) = notified h s + k ∧
    (delete_timer h (rounds (k * n) (add_timer n h true s).2)).1 = true := by
  have key := rounds_repeating n h s hn hfresh halloc
  refine ⟨fun j => ⟨(key j).2, (key j).1⟩, ?_, ?_⟩
  · rw [(key (k * n)).2, Nat.mul_div_cancel k hn]
  · rw [delete_timer_of_records, (key (k * n)).1]
    simp

/-- C9, at `n = 3` and `k = 3`. -/
theorem repeating_fires_every_interval_witness :
    0 < 3 ∧ (∀ tm ∈ three_timers.zjs_timers, tm.callback ≠ 8) ∧
    task_malloc three_timers ≠ none ∧
    notified 8 (rounds (3 * 3) (add_timer 3 8 true three_timers).2) =
      notified 8 three_timers + 3 ∧
    (delete_timer 8 (rounds (3 * 3) (add_timer 3 8 true three_timers).2)).1 = true :=
  have hw := repeating_fires_every_interval 3 3 8 three_timers (by decide) (by decide)
    (by simp [task_malloc, three_timers])
  ⟨by decide, by decide, by simp [task_malloc, three_timers], hw.2.1, hw.2.2⟩

/-- C10: for every interval `n`, every `m < n`, either flag and every object
`h` that no record of the list has as callback, after a successful
`add_timer n h repeat_` and `m` ticks with one `zjs_timers_process_events`
after each, nothing has been enqueued for `h` and the record is in the list,
with `n - m` ticks left (`delete_timer h` returns `true`). -/
theorem no_firing_before_due (n m : Nat) (h : jerry_api_object_t) (repeat_ : Bool) (s : State)
    (hm : m < n) (hfresh : ∀ tm ∈ s.zjs_timers, tm.callback ≠ h)
    (halloc : task_malloc s ≠ none) :
    notified h (rounds m (add_timer n h repeat_ s).2) = notified h s ∧
    records_of h (rounds m (add_timer n h repeat_ s).2).zjs_timers =
      [{ timer := n - m, interval := n, repeat_ := repeat_, callback := h }] ∧
    (delete_timer h (rounds m (add_timer n h repeat_ s).2)).1 = true := by
  have key : notified h (rounds m (add_timer n h repeat_ s).2) = notified h s ∧
      records_of h (rounds m (add_timer n h repeat_ s).2).zjs_timers =
        [{ timer := n - m, interval := n, repeat_ := repeat_, callback := h }] := by
    induction m with
    | zero =>
      have hq : (add_timer n h repeat_ s).2.queue = s.queue := by
        rw [add_timer_of_alloc n h repeat_ s halloc]
      refine ⟨by simp [rounds, notified, hq], ?_⟩
      rw [rounds, records_of_add_timer n h repeat_ s halloc,
        (records_of_eq_nil h s.zjs_timers).mpr hfresh]
      simp
    | succ m ih =>
      obtain ⟨ih1, ih2⟩ := ih (by omega)
      have hgt : 1 < n - m := by omega
      obtain ⟨h1, h2⟩ := (round_single h _ _ ih2).1 hgt
      rw [rounds, h1, h2, ih1]
      refine ⟨rfl, ?_⟩
      simp only [List.cons.injEq, and_true, zjs_timer_t.mk.injEq]
      omega
  refine ⟨key.1, key.2, ?_⟩
  rw [delete_timer_of_records, key.2]
  simp

/-- C10, at `n = 100`, `m = 99` and a timer that is not repeating. -/
theorem no_firing_before_due_witness :
    99 < 100 ∧ (∀ tm ∈ three_timers.zjs_timers, tm.callback ≠ 8) ∧
    task_malloc three_timers ≠ none ∧
    notified 8 (rounds 99 (add_timer 100 8 false three_timers).2) = notified 8 three_timers ∧
    (delete_timer 8 (rounds 99 (add_timer 100 8 false three_timers).2)).1 = true :=
  have hw := no_firing_before_due 100 99 8 false three_timers (by decide) (by decide)
    (by simp [task_malloc, three_timers])
  ⟨by decide, by decide, by simp [task_malloc, three_timers], hw.1, hw.2.2⟩

/-! ## Cancellation -/

theorem unlink_records_of (h : jerry_api_object_t) (l : List zjs_timer_t) :
    unlink h (records_of h l) = (records_of h l).drop 1 := by
  cases hr : records_of h l with
  | nil => simp [unlink]
  | cons a rest =>
    have ha : a ∈ records_of h l := by rw [hr]; simp
    have hc : a.callback = h := by
      simpa using (List.mem_filter.mp ha).2
    simp [unlink, List.eraseP_cons, hc]

theorem records_of_delete_timer (h : jerry_api_object_t) (s : State) :
    records_of h (delete_timer h s).2.zjs_timers = (records_of h s.zjs_timers).drop 1 := by
  by_cases hmem : ∃ tm ∈ s.zjs_timers, tm.callback = h
  · rw [delete_timer_of_mem h s hmem]
    have := filter_unlink (fun c => decide (c = h)) h s.zjs_timers
    simp only [decide_True, if_true] at this
    exact this.trans (unlink_records_of h s.zjs_timers)
  · have hn : delete_timer_loop h s.zjs_timers = none :=
      (delete_timer_loop_eq_none h s.zjs_timers).mpr fun tm hin he => hmem ⟨tm, hin, he⟩
    have hr : records_of h s.zjs_timers = [] :=
      (records_of_eq_nil h _).mpr fun tm hin he => hmem ⟨tm, hin, he⟩
    simp [delete_timer, hn, hr]

theorem records_of_delete_timer_ne (h obj : jerry_api_object_t) (s : State) (hne : obj ≠ h) :
    records_of h (delete_timer obj s).2.zjs_timers = records_of h s.zjs_timers := by
  by_cases hmem : ∃ tm ∈ s.zjs_timers, tm.callback = obj
  · rw [delete_timer_of_mem obj s hmem]
    have := filter_unlink (fun c => decide (c = h)) obj s.zjs_timers
    simpa [hne] using this
  · have hn : delete_timer_loop obj s.zjs_timers = none :=
      (delete_timer_loop_eq_none obj s.zjs_timers).mpr fun tm hin he => hmem ⟨tm, hin, he⟩
    simp [delete_timer, hn]

theorem notified_delete_timer (h obj : jerry_api_object_t) (s : State) :
    notified h (delete_timer obj s).2 = notified h s := by
  by_cases hmem : ∃ tm ∈ s.zjs_timers, tm.callback = obj
  · rw [delete_timer_of_mem obj s hmem]
    rfl
  · have hn : delete_timer_loop obj s.zjs_timers = none :=
      (delete_timer_loop_eq_none obj s.zjs_timers).mpr fun tm hin he => hmem ⟨tm, hin, he⟩
    simp [delete_timer, hn]

/-- C11: in every state in which exactly one record has callback `h`, whether
its countdown has reached zero or not, `delete_timer h` returns `true`, no
record of callback `h` is left, and whatever operations follow, as long as
none of them creates a timer for `h`, no `zjs_timers_process_events` among
them enqueues a notification for `h`: the count of notifications for `h` stays
what it was when `delete_timer` was called. -/
theorem cancel_is_final (h : jerry_api_object_t) (s : State)
    (hone : (records_of h s.zjs_timers).length = 1) :
    (delete_timer h s).1 = true ∧
    records_of h (delete_timer h s).2.zjs_timers = [] ∧
    (∀ ops : List Op, (∀ op ∈ ops, op.avoids h) →
      notified h (run ops (delete_timer h s).2) = notified h s) := by
  have hgone : records_of h (delete_timer h s).2.zjs_timers = [] := by
    rw [records_of_delete_timer]
    apply List.eq_nil_of_length_eq_zero
    simp [hone]
  refine ⟨?_, hgone, ?_⟩
  · rw [delete_timer_of_records]
    have : records_of h s.zjs_timers ≠ [] := by
      intro e
      rw [e] at hone
      simp at hone
    simp [this]
  · intro ops ha
    rw [(run_avoids h ops _ ha hgone).2, notified_delete_timer]

/-- C11, at a concrete state: the one record of object `7` has been due since
the second of two ticks and has not been processed. -/
theorem cancel_is_final_witness :
    (records_of 7 (ticks 2 three_timers).zjs_timers).length = 1 ∧
    (∀ tm ∈ records_of 7 (ticks 2 three_timers).zjs_timers, expired tm = true) ∧
    (delete_timer 7 (ticks 2 three_timers)).1 = true ∧
    notified 7 (run [Op.process_tick, Op.tick, Op.process_tick]
      (delete_timer 7 (ticks 2 three_timers)).2) = notified 7 (ticks 2 three_timers) :=
  have hw := cancel_is_final 7 (ticks 2 three_timers) (by decide)
  ⟨by decide, by decide, hw.1,
    hw.2.2 [Op.process_tick, Op.tick, Op.process_tick] (by simp [Op.avoids])⟩

theorem delete_timer_none_of_fresh (h : jerry_api_object_t) (s : State)
    (hfresh : ∀ tm ∈ s.zjs_timers, tm.callback ≠ h) : delete_timer h s = (false, s) := by
  have hn := (delete_timer_loop_eq_none h s.zjs_timers).mpr hfresh
  simp [delete_timer, hn]

theorem delete_timer_after_add_timer (interval : Nat) (h : jerry_api_object_t)
    (repeat_ : Bool) (s : State) (halloc : task_malloc s ≠ none) :
    delete_timer h (add_timer interval h repeat_ s).2 = (true, s) := by
  have hheap : s.heap ≠ 0 := by
    intro h0
    exact halloc (by simp [task_malloc, h0])
  rw [add_timer_of_alloc interval h repeat_ s halloc]
  obtain ⟨l, hp, rf, q⟩ := s
  simp only [delete_timer, delete_timer_loop, if_true, task_free, jerry_api_release_object]
  simp only [Prod.mk.injEq, State.mk.injEq, true_and]
  refine ⟨?_, ?_, trivial⟩
  · simp only at hheap
    omega
  · funext o
    by_cases ho : o = h
    · simp [ho]
    · simp [ho]

/-- C12: in every state that holds no record of callback `h`, for every
interval (in particular every interval `> 0`) and either flag, after a
successful `add_timer interval h repeat_` a first `delete_timer h` returns
`true`, a second returns `false`, and the state after the two is the state
before `add_timer`: the same list, and with it the same heap, claims and
queue. -/
theorem cancel_twice (interval : Nat) (h : jerry_api_object_t) (repeat_ : Bool) (s : State)
    (hfresh : ∀ tm ∈ s.zjs_timers, tm.callback ≠ h) (halloc : task_malloc s ≠ none) :
    (delete_timer h (add_timer interval h repeat_ s).2).1 = true ∧
    (delete_timer h (delete_timer h (add_timer interval h repeat_ s).2).2).1 = false ∧
    (delete_timer h (delete_timer h (add_timer interval h repeat_ s).2).2).2 = s ∧
    (delete_timer h (delete_timer h (add_timer interval h repeat_ s).2).2).2.zjs_timers =
      s.zjs_timers := by
  rw [delete_timer_after_add_timer interval h repeat_ s halloc]
  show true = true ∧ (delete_timer h s).1 = false ∧ (delete_timer h s).2 = s ∧
    (delete_timer h s).2.zjs_timers = s.zjs_timers
  rw [delete_timer_none_of_fresh h s hfresh]
  exact ⟨rfl, rfl, rfl, rfl⟩

/-- C12, at `interval = 10` and a timer that is not repeating. -/
theorem cancel_twice_witness :
    (∀ tm ∈ three_timers.zjs_timers, tm.callback ≠ 8) ∧
    task_malloc three_timers ≠ none ∧
    (delete_timer 8 (add_timer 10 8 false three_timers).2).1 = true ∧
    (delete_timer 8 (delete_timer 8 (add_timer 10 8 false three_timers).2).2).1 = false ∧
    (delete_timer 8 (delete_timer 8 (add_timer 10 8 false three_timers).2).2).2.zjs_timers =
      three_timers.zjs_timers :=
  have hw := cancel_twice 10 8 false three_timers (by decide)
    (by simp [task_malloc, three_timers])
  ⟨by decide, by simp [task_malloc, three_timers], hw.1, hw.2.1, hw.2.2.2⟩

/-! ## Claims on the callbacks -/

theorem refs_delete_timer (h obj : jerry_api_object_t) (s : State) :
    (delete_timer obj s).2.refs h =
      if h = obj ∧ records_of obj s.zjs_timers ≠ [] then s.refs h - 1 else s.refs h := by
  by_cases hmem : ∃ tm ∈ s.zjs_timers, tm.callback = obj
  · have hr : records_of obj s.zjs_timers ≠ [] := by
      intro e
      obtain ⟨tm, hin, he⟩ := hmem
      exact (records_of_eq_nil obj _).mp e tm hin he
    rw [delete_timer_of_mem obj s hmem]
    simp [hr]
  · have hn : delete_timer_loop obj s.zjs_timers = none :=
      (delete_timer_loop_eq_none obj s.zjs_timers).mpr fun tm hin he => hmem ⟨tm, hin, he⟩
    have hr : records_of obj s.zjs_timers = [] :=
      (records_of_eq_nil obj _).mpr fun tm hin he => hmem ⟨tm, hin, he⟩
    simp [delete_timer, hn, hr]

theorem step_claims (s : State) (op : Op)
    (hinv : ∀ h, s.refs h = (records_of h s.zjs_timers).length) :
    ∀ h, (step s op).refs h = (records_of h (step s op).zjs_timers).length := by
  intro h
  cases op with
  | create interval callback repeat_ =>
    by_cases h0 : s.heap = 0
    · simpa [step, add_timer, task_malloc, h0] using hinv h
    · have halloc : task_malloc s ≠ none := by simp [task_malloc, h0]
      simp only [step]
      rw [add_timer_of_alloc interval callback repeat_ s halloc]
      by_cases hc : h = callback
      · subst hc
        simp [records_of, List.filter_cons]
        simpa [records_of] using hinv h
      · have hc' : ¬ callback = h := fun e => hc e.symm
        simp [records_of, List.filter_cons, hc, hc']
        simpa [records_of] using hinv h
  | remove obj =>
    simp only [step]
    rw [refs_delete_timer]
    by_cases hc : h = obj
    · subst hc
      rw [records_of_delete_timer, hinv h]
      by_cases hr : records_of h s.zjs_timers = []
      · simp [hr]
      · simp [hr]
    · rw [records_of_delete_timer_ne h obj s (fun e => hc e.symm), hinv h]
      simp [hc]
  | process_tick =>
    simp only [step]
    rw [refs_process_events, records_of_process_events, hinv h]
    have := length_scan (records_of h s.zjs_timers) []
    simp only [List.length_nil, Nat.zero_add] at this
    omega
  | tick =>
    simp only [step, clock_tick]
    rw [records_of_map_timer h (fun tm => tm.timer - 1), List.length_map]
    exact hinv h

theorem run_claims (ops : List Op) :
    ∀ s : State, (∀ h, s.refs h = (records_of h s.zjs_timers).length) →
      ∀ h, (run ops s).refs h = (records_of h (run ops s).zjs_timers).length := by
  induction ops with
  | nil => intro s hinv; exact hinv
  | cons op ops ih =>
    intro s hinv
    exact ih (step s op) (step_claims s op hinv)

/-- C13: with the claim on an object counted up by `jerry_api_acquire_object`
and down by `jerry_api_release_object`, in every state reached from the empty
list (no claim held) by `add_timer`, `delete_timer`,
`zjs_timers_process_events` and ticks, the claims held on each object `h` are
as many as the records of the list whose callback is `h`: every record in the
list holds one claim, and a claim is given back only together with the removal
of one record of its callback. -/
theorem claims_match_records (n : Nat) (ops : List Op) (h : jerry_api_object_t) :
    (run ops (init n)).refs h = (records_of h (run ops (init n)).zjs_timers).length :=
  run_claims ops (init n) (fun _ => rfl) h

/-! ## Order and intervals of the records -/

theorem scan_schedule_sublist (rest : List zjs_timer_t) :
    ∀ visited : List zjs_timer_t,
      ((scan visited rest).map schedule_of).Sublist ((visited ++ rest).map schedule_of) := by
  induction rest with
  | nil => intro visited; simp [scan]
  | cons tm rest ih =>
    intro visited
    by_cases hx : expired tm = true
    · by_cases hrep : tm.repeat_ = true
      · have := ih (visited ++ [{ tm with timer := tm.interval }])
        simpa [scan, hx, hrep, schedule_of] using this
      · have h1 := ih (unlink tm.callback (visited ++ [tm]))
        have h2 : (unlink tm.callback (visited ++ [tm])).Sublist (visited ++ [tm]) := by
          unfold unlink
          exact List.eraseP_sublist _
        have h3 := ((h2.append (List.Sublist.refl rest)).map schedule_of)
        have h4 := h1.trans h3
        simpa [scan, hx, hrep] using h4
    · have := ih (visited ++ [tm])
      simpa [scan, hx] using this

theorem step_schedule_sublist (s : State) (op : Op) (hk : op.keeps) :
    ((step s op).zjs_timers.map schedule_of).Sublist (s.zjs_timers.map schedule_of) := by
  cases op with
  | create interval callback repeat_ => exact absurd hk (by simp [Op.keeps])
  | remove obj =>
    by_cases hmem : ∃ tm ∈ s.zjs_timers, tm.callback = obj
    · simp only [step]
      rw [delete_timer_of_mem obj s hmem]
      apply List.Sublist.map
      unfold unlink
      exact List.eraseP_sublist _
    · have hn : delete_timer_loop obj s.zjs_timers = none :=
        (delete_timer_loop_eq_none obj s.zjs_timers).mpr fun tm hin he => hmem ⟨tm, hin, he⟩
      simp [step, delete_timer, hn]
  | process_tick =>
    simp only [step]
    rw [process_events_spec]
    simpa using scan_schedule_sublist s.zjs_timers []
  | tick =>
    simp only [step, clock_tick, List.map_map]
    exact List.Sublist.refl _

theorem step_intervals_positive (s : State) (op : Op) (hp : op.positive)
    (hinv : ∀ tm ∈ s.zjs_timers, 0 < tm.interval) :
    ∀ tm ∈ (step s op).zjs_timers, 0 < tm.interval := by
  cases op with
  | create interval callback repeat_ =>
    have hpos : 0 < interval := hp
    by_cases h0 : s.heap = 0
    · simpa [step, add_timer, task_malloc, h0] using hinv
    · have halloc : task_malloc s ≠ none := by simp [task_malloc, h0]
      simp only [step]
      rw [add_timer_of_alloc interval callback repeat_ s halloc]
      intro tm htm
      rcases List.mem_cons.mp htm with rfl | htm
      · exact hpos
      · exact hinv tm htm
  | remove obj =>
    intro tm htm
    have hsub := (step_schedule_sublist s (Op.remove obj) trivial).subset
      (List.mem_map_of_mem schedule_of htm)
    obtain ⟨y, hy, he⟩ := List.mem_map.mp hsub
    have : y.interval = tm.interval := congrArg Prod.fst he
    rw [← this]
    exact hinv y hy
  | process_tick =>
    intro tm htm
    have hsub := (step_schedule_sublist s Op.process_tick trivial).subset
      (List.mem_map_of_mem schedule_of htm)
    obtain ⟨y, hy, he⟩ := List.mem_map.mp hsub
    have : y.interval = tm.interval := congrArg Prod.fst he
    rw [← this]
    exact hinv y hy
  | tick =>
    intro tm htm
    have hsub := (step_schedule_sublist s Op.tick trivial).subset
      (List.mem_map_of_mem schedule_of htm)
    obtain ⟨y, hy, he⟩ := List.mem_map.mp hsub
    have : y.interval = tm.interval := congrArg Prod.fst he
    rw [← this]
    exact hinv y hy

theorem run_intervals_positive (ops : List Op) :
    ∀ s : State, (∀ op ∈ ops, op.positive) → (∀ tm ∈ s.zjs_timers, 0 < tm.interval) →
      ∀ tm ∈ (run ops s).zjs_timers, 0 < tm.interval := by
  induction ops with
  | nil => intro s _ hinv; exact hinv
  | cons op ops ih =>
    intro s hp hinv
    exact ih (step s op) (fun o ho => hp o (List.mem_cons_of_mem _ ho))
      (step_intervals_positive s op (hp op (List.mem_cons_self _ _)) hinv)

/-- C15 (amended): `add_timer` stores the interval it is given and checks
nothing: after a successful call the new record has exactly that interval, so
its interval is `0` exactly when the argument is `0`; and in every state
reached from the empty list by operations none of which is an `add_timer` with
interval `0`, every record has an interval `> 0`. -/
theorem intervals_as_given (n : Nat) (ops : List Op) :
    (∀ interval h repeat_ s, task_malloc s ≠ none →
      ∃ tm rest, (add_timer interval h repeat_ s).2.zjs_timers = tm :: rest ∧
        rest = s.zjs_timers ∧ tm.interval = interval) ∧
    ((∀ op ∈ ops, op.positive) → ∀ tm ∈ (run ops (init n)).zjs_timers, 0 < tm.interval) := by
  refine ⟨?_, ?_⟩
  · intro interval h repeat_ s halloc
    rw [add_timer_of_alloc interval h repeat_ s halloc]
    exact ⟨_, _, rfl, rfl, rfl⟩
  · intro hp
    exact run_intervals_positive ops (init n) hp (by simp [init])

/-- C15 (amended), at concrete inputs: two timers with intervals `3` and `5`,
some ticks and calls, and every record has an interval `> 0`. -/
theorem intervals_as_given_witness :
    (∀ op ∈ [Op.create 3 7 true, Op.create 5 9 false, Op.tick, Op.process_tick, Op.remove 7],
      op.positive) ∧
    (∀ tm ∈ (run [Op.create 3 7 true, Op.create 5 9 false, Op.tick, Op.process_tick,
        Op.remove 7] (init 4)).zjs_timers, 0 < tm.interval) :=
  ⟨by simp [Op.positive],
    (intervals_as_given 4 [Op.create 3 7 true, Op.create 5 9 false, Op.tick, Op.process_tick,
      Op.remove 7]).2 (by simp [Op.positive])⟩

/-- C15 as stated fails: `add_timer` with interval `0` on the empty list, the
allocation succeeding, returns its callback and leaves a record whose interval
is `0` in the list. -/
theorem zero_interval_counterexample :
    (add_timer 0 7 true (init 1)).1 = some 7 ∧
    (add_timer 0 7 true (init 1)).2.zjs_timers =
      [ { timer := 0, interval := 0, repeat_ := true, callback := 7 } ] ∧
    (∃ tm ∈ (add_timer 0 7 true (init 1)).2.zjs_timers, tm.interval = 0) := by
  decide

theorem run_create_ops (cs : List (Nat × jerry_api_object_t × Bool)) :
    ∀ s : State, cs.length ≤ s.heap →
      (run (create_ops cs) s).zjs_timers = cs.reverse.map created ++ s.zjs_timers ∧
      (run (create_ops cs) s).queue = s.queue := by
  induction cs with
  | nil => intro s _; simp [create_ops, run]
  | cons c cs ih =>
    intro s hlen
    have h0 : s.heap ≠ 0 := by
      simp only [List.length_cons] at hlen
      omega
    have halloc : task_malloc s ≠ none := by simp [task_malloc, h0]
    have hstep : run (create_ops (c :: cs)) s =
        run (create_ops cs) (add_timer c.1 c.2.1 c.2.2 s).2 := rfl
    rw [hstep]
    have hadd := add_timer_of_alloc c.1 c.2.1 c.2.2 s halloc
    obtain ⟨h1, h2⟩ := ih (add_timer c.1 c.2.1 c.2.2 s).2 (by
      rw [hadd]
      simp only [List.length_cons] at hlen
      show cs.length ≤ s.heap - 1
      omega)
    rw [h1, h2, hadd]
    simp [created]

/-- C18: in every state, the notifications one `zjs_timers_process_events`
enqueues are, in this order, those of the records that are expired when the
call starts, taken in list order, each with the record's callback and no
argument.  List order is the reverse of creation order: a successful
`add_timer` puts its record at the head, so that consecutive calls leave their
records in front of the older ones, last created first; and `delete_timer`,
`zjs_timers_process_events` and the tick of the clock leave the records they
keep in the order they had. -/
theorem firing_order (s : State) :
    (zjs_timers_process_events s).queue = s.queue ++ notifications s.zjs_timers ∧
    (notifications s.zjs_timers).map (fun c => c.callback) =
      (s.zjs_timers.filter expired).map (fun tm => tm.callback) ∧
    (∀ interval h repeat_, task_malloc s ≠ none →
      (add_timer interval h repeat_ s).2.zjs_timers = created (interval, h, repeat_)
        :: s.zjs_timers) ∧
    (∀ cs : List (Nat × jerry_api_object_t × Bool), cs.length ≤ s.heap →
      (run (create_ops cs) s).zjs_timers = cs.reverse.map created ++ s.zjs_timers) ∧
    (∀ op : Op, op.keeps →
      ((step s op).zjs_timers.map schedule_of).Sublist (s.zjs_timers.map schedule_of)) := by
  refine ⟨?_, ?_, ?_, ?_, ?_⟩
  · rw [process_events_spec]
  · simp [notifications, List.map_map, Function.comp_def]
  · intro interval h repeat_ halloc
    rw [add_timer_of_alloc interval h repeat_ s halloc]
    rfl
  · intro cs hlen
    exact (run_create_ops cs s hlen).1
  · intro op hk
    exact step_schedule_sublist s op hk

/-- C18, at concrete inputs: timers created for the objects `1`, `2`, `3`, in
this order, with intervals `2`, `5`, `2`; after two ticks the first and the
third are expired, and they are notified third first. -/
theorem firing_order_witness :
    (run (create_ops [(2, 1, true), (5, 2, true), (2, 3, false)]) (init 3)).zjs_timers.map
        (fun tm => tm.callback) = [3, 2, 1] ∧
    (zjs_timers_process_events
        (ticks 2 (run (create_ops [(2, 1, true), (5, 2, true), (2, 3, false)]) (init 3)))).queue
      = [ { callback := 3, args := [], argc := 0 }, { callback := 1, args := [], argc := 0 } ] := by
  have hw := (firing_order
    (ticks 2 (run (create_ops [(2, 1, true), (5, 2, true), (2, 3, false)]) (init 3)))).1
  exact ⟨by decide, hw.trans (by decide)⟩

/-! ## Which record `delete_timer` removes -/

theorem run_removes_records (h : jerry_api_object_t) (j : Nat) :
    ∀ s : State,
      records_of h (run (List.replicate j (Op.remove h)) s).zjs_timers =
        (records_of h s.zjs_timers).drop j := by
  induction j with
  | zero => intro s; simp [run]
  | succ j ih =>
    intro s
    have hstep : run (List.replicate (j + 1) (Op.remove h)) s =
        run (List.replicate j (Op.remove h)) (delete_timer h s).2 := rfl
    rw [hstep, ih, records_of_delete_timer, List.drop_drop]
    congr 1
    omega

theorem records_of_created (h : jerry_api_object_t) (cs : List (Nat × Bool)) :
    records_of h ((cs.map fun c => created (c.1, h, c.2))) =
      cs.map fun c => created (c.1, h, c.2) := by
  unfold records_of
  rw [List.filter_eq_self]
  intro a ha
  obtain ⟨c, _, rfl⟩ := List.mem_map.mp ha
  simp [created]

/-- C19: `delete_timer h` removes the first record of callback `h` in list
order and keeps every other record: the records of callback `h` afterwards are
those before without the first.  After `k` successful calls of `add_timer` for
`h` in a state without a record of `h`, the records of `h` are the `k` created,
last created first; `j` calls of `delete_timer h` remove the `j` created last
and keep the older ones; and a further call returns `true` exactly when
`j < k`, so the first `k` calls return `true` and call `k + 1` returns
`false`. -/
theorem delete_timer_tie_break (h : jerry_api_object_t) (s : State) (cs : List (Nat × Bool))
    (hfresh : ∀ tm ∈ s.zjs_timers, tm.callback ≠ h) (hheap : cs.length ≤ s.heap) :
    (∀ t : State, (delete_timer h t).1 = true →
      ∃ pre tm post, t.zjs_timers = pre ++ tm :: post ∧ tm.callback = h ∧
        (∀ r ∈ pre, r.callback ≠ h) ∧ (delete_timer h t).2.zjs_timers = pre ++ post) ∧
    (∀ t : State,
      records_of h (delete_timer h t).2.zjs_timers = (records_of h t.zjs_timers).drop 1) ∧
    records_of h (run (create_ops (cs.map fun c => (c.1, h, c.2))) s).zjs_timers =
      cs.reverse.map (fun c => created (c.1, h, c.2)) ∧
    (∀ j, records_of h (run (List.replicate j (Op.remove h))
        (run (create_ops (cs.map fun c => (c.1, h, c.2))) s)).zjs_timers =
      (cs.reverse.map fun c => created (c.1, h, c.2)).drop j) ∧
    (∀ j, (delete_timer h (run (List.replicate j (Op.remove h))
        (run (create_ops (cs.map fun c => (c.1, h, c.2))) s))).1 = decide (j < cs.length)) := by
  have hrec : records_of h (run (create_ops (cs.map fun c => (c.1, h, c.2))) s).zjs_timers =
      cs.reverse.map (fun c => created (c.1, h, c.2)) := by
    rw [(run_create_ops _ s (by simpa using hheap)).1]
    have hmap : (cs.map fun c => ((c.1, h, c.2) : Nat × jerry_api_object_t × Bool)).reverse.map
        created = cs.reverse.map fun c => created (c.1, h, c.2) := by
      simp [List.map_reverse, List.map_map, Function.comp_def]
    rw [hmap]
    show records_of h (_ ++ _) = _
    unfold records_of
    rw [List.filter_append]
    have h1 := records_of_created h cs.reverse
    have h2 := (records_of_eq_nil h s.zjs_timers).mpr hfresh
    unfold records_of at h1 h2
    rw [h1, h2, List.append_nil]
  have hdrop : ∀ j, records_of h (run (List.replicate j (Op.remove h))
      (run (create_ops (cs.map fun c => (c.1, h, c.2))) s)).zjs_timers =
      (cs.reverse.map fun c => created (c.1, h, c.2)).drop j := by
    intro j
    rw [run_removes_records, hrec]
  refine ⟨?_, fun t => records_of_delete_timer h t, hrec, hdrop, ?_⟩
  · intro t hret
    cases hd : delete_timer_loop h t.zjs_timers with
    | none => simp [delete_timer, hd] at hret
    | some p =>
      obtain ⟨tm, rest⟩ := p
      obtain ⟨pre, post, h1, h2, h3, h4⟩ := delete_timer_loop_eq_some h t.zjs_timers tm rest hd
      refine ⟨pre, tm, post, h1, h3, h2, ?_⟩
      simp [delete_timer, hd, task_free, jerry_api_release_object, h4]
  · intro j
    rw [delete_timer_of_records, hdrop j]
    by_cases hj : j < cs.length
    · have : (List.drop j (cs.reverse.map fun c => created (c.1, h, c.2))) ≠ [] := by
        intro e
        have := congrArg List.length e
        simp at this
        omega
      simp [hj, this]
    · have : (List.drop j (cs.reverse.map fun c => created (c.1, h, c.2))) = [] := by
        apply List.drop_eq_nil_of_le
        simp
        omega
      simp [hj, this]

/-- C19, at concrete inputs: two timers for object `8`; the first call of
`delete_timer` removes the record created last, and after two calls a third
returns `false`. -/
theorem delete_timer_tie_break_witness :
    (∀ tm ∈ three_timers.zjs_timers, tm.callback ≠ 8) ∧
    [((4 : Nat), true), (6, false)].length ≤ three_timers.heap ∧
    records_of 8 (run (List.replicate 1 (Op.remove 8))
        (run (create_ops ([((4 : Nat), true), (6, false)].map fun c => (c.1, 8, c.2)))
          three_timers)).zjs_timers =
      ([((4 : Nat), true), (6, false)].reverse.map fun c => created (c.1, 8, c.2)).drop 1 ∧
    (delete_timer 8 (run (List.replicate 2 (Op.remove 8))
        (run (create_ops ([((4 : Nat), true), (6, false)].map fun c => (c.1, 8, c.2)))
          three_timers))).1 = decide (2 < [((4 : Nat), true), (6, false)].length) :=
  have hw := delete_timer_tie_break 8 three_timers [(4, true), (6, false)] (by decide)
    (by decide)
  ⟨by decide, by decide, hw.2.2.2.1 1, hw.2.2.2.2 2⟩

/-! ## The native handlers -/

/-- C16: `native_clearInterval_handler` returns `true` exactly when its first
argument is an object and the list holds a record with that object as callback,
and then the state it leaves is the one `delete_timer` leaves for that object;
whenever it returns `false`, the argument being no object or `delete_timer`
having returned `false`, the state is the one it was called in.  The value at
`ret_val_p` is never written. -/
theorem clearInterval_handler_spec (ret_val : jerry_api_value_t)
    (args_p : Nat → jerry_api_value_t) (s : State) :
    ((native_clearInterval_handler ret_val args_p s).returned = true ↔
      ∃ tid, args_p 0 = jerry_api_value_t.object tid ∧ ∃ tm ∈ s.zjs_timers, tm.callback = tid) ∧
    (∀ tid, args_p 0 = jerry_api_value_t.object tid →
      (native_clearInterval_handler ret_val args_p s).returned = (delete_timer tid s).1 ∧
      (native_clearInterval_handler ret_val args_p s).state = (delete_timer tid s).2) ∧
    ((native_clearInterval_handler ret_val args_p s).returned = false →
      (native_clearInterval_handler ret_val args_p s).state = s) ∧
    (native_clearInterval_handler ret_val args_p s).ret_val = ret_val := by
  cases ha : args_p 0 with
  | object tid =>
    by_cases hmem : ∃ tm ∈ s.zjs_timers, tm.callback = tid
    · have hd := delete_timer_of_mem tid s hmem
      have e : native_clearInterval_handler ret_val args_p s =
          { returned := true, ret_val := ret_val, state := (delete_timer tid s).2 } := by
        simp only [native_clearInterval_handler, ha, hd]
      rw [e]
      refine ⟨⟨fun _ => ⟨tid, rfl, hmem⟩, fun _ => rfl⟩, ?_, ?_, rfl⟩
      · intro tid' he
        cases he
        rw [hd]
        exact ⟨rfl, rfl⟩
      · intro hf
        exact Bool.noConfusion hf
    · have hn : delete_timer_loop tid s.zjs_timers = none :=
        (delete_timer_loop_eq_none tid s.zjs_timers).mpr fun tm hin he => hmem ⟨tm, hin, he⟩
      have hd : delete_timer tid s = (false, s) := by simp [delete_timer, hn]
      have e : native_clearInterval_handler ret_val args_p s =
          { returned := false, ret_val := ret_val, state := s } := by
        simp only [native_clearInterval_handler, ha, hd]
      rw [e]
      refine ⟨⟨fun hf => Bool.noConfusion hf, ?_⟩, ?_, fun _ => rfl, rfl⟩
      · rintro ⟨tid', he, hm⟩
        cases he
        exact absurd hm hmem
      · intro tid' he
        cases he
        rw [hd]
        exact ⟨rfl, rfl⟩
  | float32 v =>
    have e : native_clearInterval_handler ret_val args_p s =
        { returned := false, ret_val := ret_val, state := s } := by
      simp only [native_clearInterval_handler, ha]
    rw [e]
    refine ⟨⟨fun hf => Bool.noConfusion hf, ?_⟩, ?_, fun _ => rfl, rfl⟩
    · rintro ⟨tid', he, _⟩
      cases he
    · intro tid' he
      cases he
  | other tag =>
    have e : native_clearInterval_handler ret_val args_p s =
        { returned := false, ret_val := ret_val, state := s } := by
      simp only [native_clearInterval_handler, ha]
    rw [e]
    refine ⟨⟨fun hf => Bool.noConfusion hf, ?_⟩, ?_, fun _ => rfl, rfl⟩
    · rintro ⟨tid', he, _⟩
      cases he
    · intro tid' he
      cases he

/-- C16, at concrete inputs: cancelling object `7` succeeds and removes its
record; cancelling object `8`, which has no record, and cancelling with a
float both return `false`. -/
theorem clearInterval_handler_witness :
    (native_clearInterval_handler (jerry_api_value_t.other 0)
      (args_of [jerry_api_value_t.object 7]) three_timers).returned = true ∧
    (native_clearInterval_handler (jerry_api_value_t.other 0)
      (args_of [jerry_api_value_t.object 7]) three_timers).state.zjs_timers =
        three_timers.zjs_timers.drop 1 ∧
    (native_clearInterval_handler (jerry_api_value_t.other 0)
      (args_of [jerry_api_value_t.object 8]) three_timers).returned = false ∧
    (native_clearInterval_handler (jerry_api_value_t.other 0)
      (args_of [jerry_api_value_t.float32 7]) three_timers).returned = false :=
  ⟨(clearInterval_handler_spec (jerry_api_value_t.other 0)
      (args_of [jerry_api_value_t.object 7]) three_timers).1.mpr ⟨7, rfl, by decide⟩,
    by decide, by decide, by decide⟩

/-- C17: when the first argument of `native_setInterval_handler` is an object
and the second a float, then, if the allocation of the record succeeds, the
handler returns `true`, the value at `ret_val_p` is the callback object, and
one record, repeating, for that callback, with the interval the float converts
to, has been put in front of the list, which is otherwise as it was; if the
allocation fails the handler returns `false` and the state and the value at
`ret_val_p` are as they were.  When the first argument is no object or the
second no float, the handler returns `false` and state and value are as they
were. -/
theorem setInterval_handler_spec (to_ticks : Nat → Nat) (ret_val : jerry_api_value_t)
    (args_p : Nat → jerry_api_value_t) (s : State) :
    (∀ callback v, args_p 0 = jerry_api_value_t.object callback →
      args_p 1 = jerry_api_value_t.float32 v →
      (task_malloc s ≠ none →
        (native_setInterval_handler to_ticks ret_val args_p s).returned = true ∧
        (native_setInterval_handler to_ticks ret_val args_p s).ret_val =
          jerry_api_value_t.object callback ∧
        (native_setInterval_handler to_ticks ret_val args_p s).state =
          (add_timer (to_ticks v) callback true s).2 ∧
        (native_setInterval_handler to_ticks ret_val args_p s).state.zjs_timers =
          { timer := to_ticks v, interval := to_ticks v, repeat_ := true,
            callback := callback } :: s.zjs_timers) ∧
      (task_malloc s = none →
        (native_setInterval_handler to_ticks ret_val args_p s).returned = false ∧
        (native_setInterval_handler to_ticks ret_val args_p s).ret_val = ret_val ∧
        (native_setInterval_handler to_ticks ret_val args_p s).state = s)) ∧
    ((¬ ∃ callback v, args_p 0 = jerry_api_value_t.object callback ∧
        args_p 1 = jerry_api_value_t.float32 v) →
      (native_setInterval_handler to_ticks ret_val args_p s).returned = false ∧
      (native_setInterval_handler to_ticks ret_val args_p s).ret_val = ret_val ∧
      (native_setInterval_handler to_ticks ret_val args_p s).state = s) := by
  have hbad : ∀ r, r = native_setInterval_handler to_ticks ret_val args_p s →
      r = { returned := false, ret_val := ret_val, state := s } →
      (native_setInterval_handler to_ticks ret_val args_p s).returned = false ∧
      (native_setInterval_handler to_ticks ret_val args_p s).ret_val = ret_val ∧
      (native_setInterval_handler to_ticks ret_val args_p s).state = s := by
    intro r h1 h2
    rw [← h1, h2]
    exact ⟨rfl, rfl, rfl⟩
  refine ⟨?_, ?_⟩
  · intro callback v h0 h1
    refine ⟨?_, ?_⟩
    · intro halloc
      have hadd := add_timer_of_alloc (to_ticks v) callback true s halloc
      have e : native_setInterval_handler to_ticks ret_val args_p s =
          { returned := true, ret_val := jerry_api_value_t.object callback,
            state := (add_timer (to_ticks v) callback true s).2 } := by
        simp only [native_setInterval_handler, h0, h1, hadd, zjs_init_api_value_object]
      rw [e]
      refine ⟨rfl, rfl, rfl, ?_⟩
      rw [hadd]
    · intro hfail
      have hadd : add_timer (to_ticks v) callback true s = (none, s) := by
        simp [add_timer, hfail]
      exact hbad _ rfl (by simp only [native_setInterval_handler, h0, h1, hadd])
  · intro hno
    cases h0 : args_p 0 with
    | object callback =>
      cases h1 : args_p 1 with
      | float32 v => exact absurd ⟨callback, v, h0, h1⟩ hno
      | object o => exact hbad _ rfl (by simp only [native_setInterval_handler, h0, h1])
      | other tag => exact hbad _ rfl (by simp only [native_setInterval_handler, h0, h1])
    | float32 v => exact hbad _ rfl (by simp only [native_setInterval_handler, h0])
    | other tag => exact hbad _ rfl (by simp only [native_setInterval_handler, h0])

/-- C17, at concrete inputs, with a conversion of 10 ms to the tick: a call
with object `8` and the float whose bits are `50` returns `true` with object
`8` as value and one more record; with the heap exhausted, or with the
arguments swapped, it returns `false`. -/
theorem setInterval_handler_witness :
    (native_setInterval_handler (fun v => v / 10) (jerry_api_value_t.other 0)
      (args_of [jerry_api_value_t.object 8, jerry_api_value_t.float32 50])
      three_timers).returned = true ∧
    (native_setInterval_handler (fun v => v / 10) (jerry_api_value_t.other 0)
      (args_of [jerry_api_value_t.object 8, jerry_api_value_t.float32 50])
      three_timers).ret_val = jerry_api_value_t.object 8 ∧
    (native_setInterval_handler (fun v => v / 10) (jerry_api_value_t.other 0)
      (args_of [jerry_api_value_t.object 8, jerry_api_value_t.float32 50])
      three_timers).state.zjs_timers =
        { timer := 5, interval := 5, repeat_ := true, callback := 8 }
          :: three_timers.zjs_timers ∧
    (native_setInterval_handler (fun v => v / 10) (jerry_api_value_t.other 0)
      (args_of [jerry_api_value_t.object 8, jerry_api_value_t.float32 50])
      heap_exhausted).returned = false ∧
    (native_setInterval_handler (fun v => v / 10) (jerry_api_value_t.other 0)
      (args_of [jerry_api_value_t.float32 50, jerry_api_value_t.object 8])
      three_timers).returned = false :=
  have hw := ((setInterval_handler_spec (fun v => v / 10) (jerry_api_value_t.other 0)
    (args_of [jerry_api_value_t.object 8, jerry_api_value_t.float32 50]) three_timers).1
      8 50 rfl rfl).1 (by simp [task_malloc, three_timers])
  ⟨hw.1, hw.2.1, hw.2.2.2, by decide, by decide⟩

/-! ## Reads from freed blocks -/

/-- C14: the loop of `zjs_timers_process_events` is to take the successor of a
record before the record can be removed, so that no field of a freed record is
read.  The code does otherwise: in the memory `due_in_memory` the record at
the head, at address `2`, is expired and not repeating; the body of the loop
frees its block through `delete_timer`, and the step `tm = tm->next` then reads
the field `next` of that freed block (the one read logged), finds address `1`
there and goes on with the record at address `1`.  The list and the queue the
call ends with are those of the list model. -/
theorem process_events_reads_freed_block :
    due_in_memory.timers =
      [ { timer := 0, interval := 5, repeat_ := false, callback := 7 },
        { timer := 0, interval := 4, repeat_ := true, callback := 9 } ] ∧
    (zjs_timers_process_events_mem due_in_memory).stale_reads = [2] ∧
    ((zjs_timers_process_events_mem due_in_memory).blocks.get? 1).map (fun b => b.freed)
      = some true ∧
    (zjs_timers_process_events_mem due_in_memory).queue =
      [ { callback := 7, args := [], argc := 0 }, { callback := 9, args := [], argc := 0 } ] ∧
    (zjs_timers_process_events_mem due_in_memory).timers =
      (zjs_timers_process_events due_in_memory.state).zjs_timers ∧
    (zjs_timers_process_events_mem due_in_memory).queue =
      (zjs_timers_process_events due_in_memory.state).queue := by
  decide

theorem stale_reads_read (m : Memory) (x a : Nat) (h : a ∈ m.stale_reads) :
    a ∈ (m.read x).stale_reads := by
  unfold Memory.read
  split
  · split
    · simp [h]
    · exact h
  · exact h

theorem stale_reads_write (m : Memory) (x : Nat) (b : block) :
    (m.write x b).stale_reads = m.stale_reads := by
  unfold Memory.write
  split <;> rfl

theorem stale_reads_free (m : Memory) (x : Nat) :
    (m.free x).stale_reads = m.stale_reads := by
  unfold Memory.free
  split
  · exact stale_reads_write _ _ _
  · rfl

theorem stale_reads_store (m : Memory) (v : Nat) (p : link) :
    (m.store v p).stale_reads = m.stale_reads := by
  cases p with
  | head => rfl
  | next x =>
    simp only [Memory.store]
    split
    · exact stale_reads_write _ _ _
    · rfl

theorem stale_reads_delete_timer_mem (a : Nat) (fuel : Nat) :
    ∀ (obj : jerry_api_object_t) (ptm : link) (m : Memory), a ∈ m.stale_reads →
      a ∈ (delete_timer_mem fuel obj ptm m).2.stale_reads := by
  induction fuel with
  | zero => intro obj ptm m h; exact h
  | succ fuel ih =>
    intro obj ptm m h
    have h0 : a ∈ (m.read_link ptm).stale_reads := by
      cases ptm with
      | head => exact h
      | next x => exact stale_reads_read m x a h
    unfold delete_timer_mem
    simp only []
    split
    · exact h0
    · split
      · rw [stale_reads_free, stale_reads_store]
        exact stale_reads_read _ _ a h0
      · exact ih _ _ _ (stale_reads_read _ _ a h0)

theorem stale_reads_process_events_mem (a : Nat) (fuel : Nat) :
    ∀ (tm : Nat) (m : Memory), a ∈ m.stale_reads →
      a ∈ (process_events_mem fuel tm m).stale_reads := by
  induction fuel with
  | zero => intro tm m h; exact h
  | succ fuel ih =>
    intro tm m h
    unfold process_events_mem
    split
    · exact h
    · rename_i b hb
      simp only []
      have h1 : a ∈ (m.read tm).stale_reads := stale_reads_read m tm a h
      have h2 : a ∈ (if nano_task_timer_test b.tm.timer = true then
          if b.tm.repeat_ = true then
            Memory.write { m.read tm with queue := (m.read tm).queue ++
              [{ callback := b.tm.callback, args := [], argc := 0 }] } tm
              { b with tm := { b.tm with timer := nano_timer_start b.tm.interval } }
          else (delete_timer_mem (m.read tm).blocks.length b.tm.callback link.head
            { m.read tm with queue := (m.read tm).queue ++
              [{ callback := b.tm.callback, args := [], argc := 0 }] }).2
          else m.read tm).stale_reads := by
        split
        · split
          · rw [stale_reads_write]
            exact h1
          · exact stale_reads_delete_timer_mem a _ _ _ _ h1
        · exact h1
      have h3 := stale_reads_read _ tm a h2
      split
      · exact h3
      · exact ih _ _ h3

theorem deref_write_self (m : Memory) (a : Nat) (b b' : block) (h : m.deref a = some b) :
    (m.write a b').deref a = some b' := by
  unfold Memory.deref at h ⊢
  by_cases ha : a = 0
  · simp [ha] at h
  · simp only [ha, if_false] at h ⊢
    have hlt : a - 1 < m.blocks.length := by
      rcases Nat.lt_or_ge (a - 1) m.blocks.length with hl | hl
      · exact hl
      · rw [List.get?_eq_none.mpr hl] at h
        cases h
    simp [Memory.write, ha, List.get?_eq_getElem?, List.getElem?_set, hlt]

/-- Whenever the record at the head of the list is in use, expired and not
repeating, `zjs_timers_process_events` reads its block after having freed
it. -/
theorem process_events_mem_reads_freed_head (m : Memory) (b : block)
    (hb : m.deref m.zjs_timers = some b) (hlive : b.freed = false)
    (hexp : nano_task_timer_test b.tm.timer = true) (hone : b.tm.repeat_ = false) :
    m.zjs_timers ∈ (zjs_timers_process_events_mem m).stale_reads := by
  have hlen : ∃ n, m.blocks.length = n + 1 := by
    cases hl : m.blocks.length with
    | zero =>
      have hnil : m.blocks = [] := List.eq_nil_of_length_eq_zero hl
      unfold Memory.deref at hb
      rw [hnil] at hb
      split at hb <;> simp at hb
    | succ n => exact ⟨n, rfl⟩
  obtain ⟨n, hn⟩ := hlen
  have hread : m.read m.zjs_timers = m := by
    unfold Memory.read
    rw [hb]
    simp [hlive]
  unfold zjs_timers_process_events_mem
  rw [hn]
  unfold process_events_mem
  simp only [hb, hread, hexp, hone, if_true, Bool.false_eq_true, if_false]
  rw [hn]
  unfold delete_timer_mem
  have hb' : Memory.deref { m with queue := m.queue ++
      [{ callback := b.tm.callback, args := [], argc := 0 }] } m.zjs_timers = some b := hb
  have hread' : Memory.read { m with queue := m.queue ++
      [{ callback := b.tm.callback, args := [], argc := 0 }] } m.zjs_timers =
      { m with queue := m.queue ++ [{ callback := b.tm.callback, args := [], argc := 0 }] } := by
    unfold Memory.read
    rw [hb']
    simp [hlive]
  simp only [Memory.read_link, Memory.load, hb', hread', if_true]
  have hfreed : (Memory.free (Memory.store { m with queue := m.queue ++
      [{ callback := b.tm.callback, args := [], argc := 0 }] } b.next link.head)
      m.zjs_timers).deref m.zjs_timers = some { b with freed := true } := by
    have hd : (Memory.store { m with queue := m.queue ++
        [{ callback := b.tm.callback, args := [], argc := 0 }] } b.next link.head).deref
        m.zjs_timers = some b := hb
    unfold Memory.free
    rw [hd]
    exact deref_write_self _ _ _ _ hd
  have hlog : m.zjs_timers ∈ (Memory.read (Memory.free (Memory.store { m with queue := m.queue ++
      [{ callback := b.tm.callback, args := [], argc := 0 }] } b.next link.head)
      m.zjs_timers) m.zjs_timers).stale_reads := by
    unfold Memory.read
    rw [hfreed]
    simp
  split
  · exact hlog
  · exact stale_reads_process_events_mem _ _ _ _ hlog

/-- The record at the head of `due_in_memory` is in use, expired and not
repeating. -/
theorem process_events_mem_reads_freed_head_example :
    due_in_memory.deref due_in_memory.zjs_timers =
      some { tm := { timer := 0, interval := 5, repeat_ := false, callback := 7 },
             next := 1, freed := false } ∧
    due_in_memory.zjs_timers ∈ (zjs_timers_process_events_mem due_in_memory).stale_reads :=
  ⟨by decide,
    process_events_mem_reads_freed_head due_in_memory
      { tm := { timer := 0, interval := 5, repeat_ := false, callback := 7 },
        next := 1, freed := false }
      (by decide) rfl rfl rfl⟩

end ZjsTimers
